import Mathlib

/-!
Shallow embedding of the tree-genius path-to-tree engine.

Source material: `src/src/App.jsx` (variant A) and `src/unnamed/part_000`
(variant B).  Both variants contain the same engine: `buildTreeAsync`
(fold a list of `(relativePath, size)` entries into a nested hierarchy,
with an ignore filter, chunked cooperative yielding and an abort signal)
and `renderNodes` (sorted, depth-guarded renderer), plus `formatSize` and
a `JSON.stringify` serialization for the `json` style.

Modelling decisions, stated once here:

* JavaScript objects used as string-keyed maps are modelled as association
  lists in insertion order (`TreeLevel`); property insertion appends at the
  end, property update keeps the position, exactly as JS does for
  non-integer-like keys.
* The JS number `file.size` is a non-negative integer in every use here,
  modelled as `Nat`; statistics counters likewise.
* `path.split('/')` is modelled by `splitOnChar` on the character list of
  the string (the built-in `String.splitOn` does not reduce in the
  kernel); `''.split('/') = ['']` holds for the model as well.
* `a.localeCompare(b)` (default locale) is modelled as the exact
  case-aware comparison: case-insensitive primary comparison of the
  lowercased strings, with the raw code-point comparison as tie-break.
* The `AbortController` signal is modelled as `signal : Nat → Bool`, read
  at the abort-check points of a pass.  The build loop checks the signal
  after every yield (`i % CHUNK === 0`), observing `signal (i / CHUNK)`
  (the flag as of that batch); `renderNodes` checks it at every call
  entry, observing `signal t` for its own running check counter `t`.
  Within each phase the sequence of observations is exactly the source's
  sequence of `signal.aborted` reads; no claim below depends on the
  relative clock of the two phases.  The `i % 500` render yields perform
  no check and are therefore not observable; they are omitted.
* `buildTreeAsync` may throw: `Error('Aborted')` at an abort check, or a
  `TypeError` when the walk descends through a node stored as a file
  (JS reads `._children` of a file object, getting `undefined`, and the
  next property access throws).  Both are modelled by `Except BuildErr`.
* The depth guard `if (depth >= cfg.maxDepth) return ''` is encoded by
  the fuel argument of `renderTreeExA`/`renderTreePureA`: the renderer is
  started with fuel `cfg.maxDepth - depth` and a call with fuel `0` is
  exactly a call whose `depth` has reached `cfg.maxDepth`.
* `Math.floor(Math.log(bytes)/Math.log(1024))` and
  `parseFloat(x.toFixed(2))` are floating-point in the source; they are
  modelled by the exact quantities `Nat.log 1024 bytes` and
  round-half-up-to-hundredths with trailing zeros stripped (`fix2`).
-/

/-- Error outcomes of one build+render pass: the cooperative cancellation
outcome (`Error('Aborted')` in the source) and any other thrown error
(the `TypeError` raised when a path descends through a file node). -/
inductive BuildErr where
  | aborted
  | typeError
deriving DecidableEq

/-- Displayable message of an error, mirroring `err.message` in the source
(the generation driver distinguishes cancellation by the exact string
"Aborted"). -/
def BuildErr.message : BuildErr → String
  | .aborted => "Aborted"
  | .typeError => "TypeError"

/-- A node of the built hierarchy: `{_type:'file', size}` or
`{_type:'dir', _children:{...}}` in the source. -/
inductive TreeNode where
  | file (size : Nat)
  | dir (children : List (String × TreeNode))

/-- A children map (a JS object used as a string-keyed map), in insertion
order. -/
abbrev TreeLevel := List (String × TreeNode)

/-- Discriminator `data._type === 'dir'`. -/
def TreeNode.isDir : TreeNode → Bool
  | .dir _ => true
  | .file _ => false

/-- Accessor `data._children` (only read on directory nodes). -/
def TreeNode.children : TreeNode → TreeLevel
  | .dir ch => ch
  | .file _ => []

/-- Accessor `data.size` (only read on file nodes). -/
def TreeNode.size : TreeNode → Nat
  | .file s => s
  | .dir _ => 0

/-- Statistics accumulator `{ dirs: 0, files: 0, totalSize: 0 }`. -/
structure Stats where
  dirs : Nat
  files : Nat
  totalSize : Nat
deriving DecidableEq

/-- Configuration record consumed by the engine. -/
structure Config where
  maxDepth : Nat
  style : String
  ignores : List String
  showFiles : Bool
  showSizes : Bool
  trailingSlash : Bool
  showStats : Bool

/-- Glyph set of one display style (`TREE_STYLES` entry); icon fields are
empty for styles that define none. -/
structure TreeStyle where
  branch : String
  lastBranch : String
  vertical : String
  space : String
  folderIcon : String
  fileIcon : String

/-- Style table entry `classic` (shared by both variants). -/
def classicStyle : TreeStyle := ⟨"├── ", "└── ", "│   ", "    ", "", ""⟩

/-- Style table entry `ascii` (shared by both variants). -/
def asciiStyle : TreeStyle := ⟨"|-- ", "`-- ", "|   ", "    ", "", ""⟩

/-- Style table entry `minimal` (shared by both variants). -/
def minimalStyle : TreeStyle := ⟨"+ ", "+ ", "  ", "  ", "", ""⟩

/-- Style table entry `indent` of variant A: two spaces for every glyph. -/
def indentStyleA : TreeStyle := ⟨"  ", "  ", "  ", "  ", "", ""⟩

/-- Style table entry `indent` of variant B: empty glyphs (the renderer of
variant B special-cases the indent style instead). -/
def indentStyleB : TreeStyle := ⟨"", "", "", "", "", ""⟩

/-- Style table entry `emoji` (shared by both variants). -/
def emojiStyle : TreeStyle := ⟨"├── ", "└── ", "│   ", "    ", "📁 ", "📄 "⟩

/-- Lookup `TREE_STYLES[s]` of variant A. -/
def styleTableA (s : String) : Option TreeStyle :=
  if s = "classic" then some classicStyle
  else if s = "ascii" then some asciiStyle
  else if s = "minimal" then some minimalStyle
  else if s = "indent" then some indentStyleA
  else if s = "emoji" then some emojiStyle
  else none

/-- Lookup `TREE_STYLES[s]` of variant B. -/
def styleTableB (s : String) : Option TreeStyle :=
  if s = "classic" then some classicStyle
  else if s = "ascii" then some asciiStyle
  else if s = "minimal" then some minimalStyle
  else if s = "indent" then some indentStyleB
  else if s = "emoji" then some emojiStyle
  else none

/-- Fallback `TREE_STYLES[cfg.style] || TREE_STYLES.classic`, variant A. -/
def styleForA (s : String) : TreeStyle := (styleTableA s).getD classicStyle

/-- Fallback `TREE_STYLES[cfg.style] || TREE_STYLES.classic`, variant B. -/
def styleForB (s : String) : TreeStyle := (styleTableB s).getD classicStyle

/-- Splitter worker over character lists: accumulates the current segment
in reverse. -/
def splitChars (sep : Char) : List Char → List Char → List (List Char)
  | [], acc => [acc.reverse]
  | c :: rest, acc =>
    if c = sep then acc.reverse :: splitChars sep rest []
    else splitChars sep rest (c :: acc)

/-- Model of JS `s.split(sep)` for a single-character separator; in
particular `splitOnChar "" sep = [""]`. -/
def splitOnChar (s : String) (sep : Char) : List String :=
  (splitChars sep s.data []).map String.mk

/-- Lexicographic comparison of character lists by code point. -/
def charsCmp : List Char → List Char → Ordering
  | [], [] => .eq
  | [], _ :: _ => .lt
  | _ :: _, [] => .gt
  | a :: as, b :: bs =>
    if a < b then .lt else if b < a then .gt else charsCmp as bs

/-- Model of JS `a.localeCompare(b)` in the default locale: case-aware
comparison, i.e. case-insensitive primary comparison with the raw
code-point comparison as tie-break (so it is a total order whose only
ties are equal strings). -/
def localeCompare (a b : String) : Ordering :=
  match charsCmp (a.data.map Char.toLower) (b.data.map Char.toLower) with
  | .eq => charsCmp a.data b.data
  | o => o

/-- The sort comparator of `renderNodes` (identical in both variants):
directories first, then `localeCompare` on the segment name. -/
def entriesCmp (a b : String × TreeNode) : Ordering :=
  match a.2.isDir, b.2.isDir with
  | true, false => .lt
  | false, true => .gt
  | _, _ => localeCompare a.1 b.1

/-- Relation "the comparator result is ≤ 0", i.e. `a` may come before `b`
in the sorted entry list. -/
def entryRel (a b : String × TreeNode) : Prop := entriesCmp a b ≠ Ordering.gt

instance : DecidableRel entryRel :=
  fun a b => inferInstanceAs (Decidable (entriesCmp a b ≠ Ordering.gt))

/-- Model of `Object.entries(nodes).sort(comparator)`: JS `sort` is stable
(ES2019), and a stable sort of a list under a total preorder is uniquely
determined, so the stable `insertionSort` is an exact model. -/
def sortEntries (nodes : TreeLevel) : TreeLevel := nodes.insertionSort entryRel

/-- Map lookup `currentLevel[part]` (first occurrence; the build keeps
keys unique). -/
def findVal : TreeLevel → String → Option TreeNode
  | [], _ => none
  | (k, v) :: rest, p => if k = p then some v else findVal rest p

/-- In-place update of the value stored at an existing key, keeping its
position, as JS property assignment does. -/
def setVal : TreeLevel → String → TreeNode → TreeLevel
  | [], _, _ => []
  | (k, v) :: rest, p, n => if k = p then (p, n) :: rest else (k, v) :: setVal rest p n

/-- One `relevantParts.forEach(...)` walk of `buildTreeAsync`: walk/extend
the hierarchy segment by segment, creating a `dir` node (counting it) for
every missing non-final segment and a `file` node (counting it and its
size) for a missing final segment; an existing node is kept as is.
Descending through a node stored as a file models the source reading
`._children` of a file object (`undefined`): the following property
access throws, which aborts the whole build (`.error .typeError`). -/
def insertParts : TreeLevel → List String → Nat → Stats → Except BuildErr (TreeLevel × Stats)
  | level, [], _, s => .ok (level, s)
  | level, [p], size, s =>
    match findVal level p with
    | some _ => .ok (level, s)
    | none =>
      .ok (level ++ [(p, .file size)],
           { s with files := s.files + 1, totalSize := s.totalSize + size })
  | level, p :: q :: rest, size, s =>
    match findVal level p with
    | some (.dir ch) =>
      match insertParts ch (q :: rest) size s with
      | .ok (ch2, s2) => .ok (setVal level p (.dir ch2), s2)
      | .error e => .error e
    | some (.file _) => .error .typeError
    | none =>
      match insertParts [] (q :: rest) size { s with dirs := s.dirs + 1 } with
      | .ok (ch2, s2) => .ok (level ++ [(p, .dir ch2)], s2)
      | .error e => .error e

/-- Processing of one entry of the file list: split the path, drop the
root segment (`parts.slice(1)`), skip the entry entirely when any
remaining segment is a member of the ignore list (`continue`), otherwise
insert it. -/
def processEntry (cfg : Config) (acc : TreeLevel × Stats) (f : String × Nat) :
    Except BuildErr (TreeLevel × Stats) :=
  let parts := splitOnChar f.1 '/'
  let relevantParts := parts.drop 1
  if relevantParts.any (fun part => cfg.ignores.contains part) then .ok acc
  else insertParts acc.1 relevantParts f.2 acc.2

/-- The build loop without its yield/abort instrumentation (the loop body
of `buildTreeAsync` for a signal that is never set). -/
def buildLoopPure (cfg : Config) : List (String × Nat) → TreeLevel × Stats →
    Except BuildErr (TreeLevel × Stats)
  | [], acc => .ok acc
  | f :: rest, acc =>
    match processEntry cfg acc f with
    | .ok acc2 => buildLoopPure cfg rest acc2
    | .error e => .error e

/-- Tree and statistics produced by `buildTreeAsync` from a path list
(the whole phase-1 loop, signal never set). -/
def buildPure (files : List (String × Nat)) (cfg : Config) :
    Except BuildErr (TreeLevel × Stats) :=
  buildLoopPure cfg files ([], ⟨0, 0, 0⟩)

/-- The chunked build loop with its abort checks: at every index with
`i % chunk = 0` the loop yields and then reads the signal, observing its
state `signal (i / chunk)` as of that batch.  Variant A uses
`chunk = 2000`, variant B `chunk = 1500`. -/
def buildLoopChunk (cfg : Config) (signal : Nat → Bool) (chunk : Nat) :
    List (String × Nat) → Nat → TreeLevel × Stats →
    Except BuildErr (TreeLevel × Stats)
  | [], _, acc => .ok acc
  | f :: rest, i, acc =>
    if i % chunk = 0 then
      if signal (i / chunk) then .error .aborted
      else
        match processEntry cfg acc f with
        | .ok acc2 => buildLoopChunk cfg signal chunk rest (i + 1) acc2
        | .error e => .error e
    else
      match processEntry cfg acc f with
      | .ok acc2 => buildLoopChunk cfg signal chunk rest (i + 1) acc2
      | .error e => .error e

/-- Two-decimal fixed formatting with stripping, the model of JS
`parseFloat((n / d).toFixed(2))` rendered back to a string: `r` is
`100 * n / d` rounded half-up to an integer; the decimal point and
trailing zeros of the two-digit fraction are dropped exactly as
`parseFloat` does. -/
def fix2 (n d : Nat) : String :=
  let r := (200 * n + d) / (2 * d)
  let ip := r / 100
  let fr := r % 100
  if fr = 0 then toString ip
  else if fr % 10 = 0 then toString ip ++ "." ++ toString (fr / 10)
  else if fr < 10 then toString ip ++ ".0" ++ toString fr
  else toString ip ++ "." ++ toString fr

/-- Model of `formatSize` (identical in both variants): `'0 B'` for zero;
otherwise the value scaled by `1024 ^ i` for `i = floor(log_1024 bytes)`
with unit `['B','KB','MB','GB'][i]` — an index past the end of the unit
array is JS `undefined`, which string-concatenates as `"undefined"`,
modelled by `getD i "undefined"`. -/
def formatSize (bytes : Nat) : String :=
  if bytes = 0 then "0 B"
  else
    fix2 bytes (1024 ^ Nat.log 1024 bytes) ++ " " ++
      (["B", "KB", "MB", "GB"].getD (Nat.log 1024 bytes) "undefined")

/-- Indentation used by `JSON.stringify(tree, null, 2)`: `2 * d` spaces. -/
def jsonInd : Nat → String
  | 0 => ""
  | n + 1 => "  " ++ jsonInd n

/-- JSON string escaping for one character (the fragment of the JSON
escaping rules relevant to path segments). -/
def jsonEscChar (c : Char) : String :=
  if c = '"' then "\\\""
  else if c = '\\' then "\\\\"
  else if c = '\n' then "\\n"
  else if c = '\t' then "\\t"
  else if c = '\r' then "\\r"
  else String.mk [c]

/-- JSON string escaping. -/
def jsonEsc (s : String) : String := String.join (s.data.map jsonEscChar)

mutual

/-- Serialization of one node as `JSON.stringify(tree, null, 2)` prints it
at nesting depth `d`: the runtime objects are `{_type:'file', size}` and
`{_type:'dir', _children:{...}}`, so the keys serialized are `"_type"`,
`"size"` and `"_children"`, in insertion order. -/
def jsonNode : TreeNode → Nat → String
  | .file size, d =>
    "\x7b\n" ++ jsonInd (d + 1) ++ "\"_type\": \"file\",\n" ++ jsonInd (d + 1) ++
      "\"size\": " ++ toString size ++ "\n" ++ jsonInd d ++ "\x7d"
  | .dir ch, d =>
    "\x7b\n" ++ jsonInd (d + 1) ++ "\"_type\": \"dir\",\n" ++ jsonInd (d + 1) ++
      "\"_children\": " ++ jsonTree ch (d + 1) ++ "\n" ++ jsonInd d ++ "\x7d"

/-- Serialization of a children map (insertion order, 2-space indent); an
empty object prints as `\x7b\x7d` with no inner break, as in JS. -/
def jsonTree : TreeLevel → Nat → String
  | [], _ => "\x7b\x7d"
  | e :: rest, d => "\x7b\n" ++ jsonEntries (e :: rest) (d + 1) ++ "\n" ++ jsonInd d ++ "\x7d"

/-- Serialization of the entries of a non-empty object, joined by ",\n". -/
def jsonEntries : TreeLevel → Nat → String
  | [], _ => ""
  | [(k, v)], d => jsonInd d ++ "\"" ++ jsonEsc k ++ "\": " ++ jsonNode v d
  | (k, v) :: e :: rest, d =>
    jsonInd d ++ "\"" ++ jsonEsc k ++ "\": " ++ jsonNode v d ++ ",\n" ++
      jsonEntries (e :: rest) d

end

/-- Model of JS `'  '.repeat(n)` style repetition. -/
def repeatStr (s : String) : Nat → String
  | 0 => ""
  | n + 1 => s ++ repeatStr s n

/-- Loop body of variant A's `renderNodes` over the sorted entry list:
`down` is the recursive render call for one level deeper.  `isLast` is
`i === entries.length - 1` of the source, which counts skipped file
entries too, hence `rest.isEmpty`.  A file entry with `showFiles` off is
skipped (`continue`) but still occupied its index. -/
def renderRowExA (cfg : Config) (style : TreeStyle)
    (down : TreeLevel → String → Nat → Nat → Except BuildErr (String × Nat)) :
    TreeLevel → String → Nat → Nat → Except BuildErr (String × Nat)
  | [], _, _, t => .ok ("", t)
  | (name, data) :: rest, pre, depth, t =>
    if !cfg.showFiles && !data.isDir then renderRowExA cfg style down rest pre depth t
    else
      let isLast := rest.isEmpty
      let connector := if isLast then style.lastBranch else style.branch
      let icon :=
        if cfg.style = "emoji" then
          if data.isDir then style.folderIcon else style.fileIcon
        else ""
      let lineContent :=
        name ++ (if data.isDir && cfg.trailingSlash then "/" else "") ++
          (if cfg.showSizes && !data.isDir then " (" ++ formatSize data.size ++ ")" else "")
      let line := pre ++ connector ++ icon ++ lineContent ++ "\n"
      if data.isDir then
        match down data.children (pre ++ (if isLast then style.space else style.vertical))
            (depth + 1) t with
        | .error e => .error e
        | .ok (sub, t1) =>
          match renderRowExA cfg style down rest pre depth t1 with
          | .error e => .error e
          | .ok (tail, t2) => .ok (line ++ sub ++ tail, t2)
      else
        match renderRowExA cfg style down rest pre depth t with
        | .error e => .error e
        | .ok (tail, t1) => .ok (line ++ tail, t1)

/-- Variant A's `renderNodes` with its abort check.  The fuel argument
encodes the depth guard: the renderer is called with fuel
`cfg.maxDepth - depth`, and fuel `0` is exactly `depth >= cfg.maxDepth`,
returning `''` before the signal is consulted (the source checks the
depth first). -/
def renderTreeExA (cfg : Config) (signal : Nat → Bool) :
    Nat → TreeLevel → String → Nat → Nat → Except BuildErr (String × Nat)
  | 0, _, _, _, t => .ok ("", t)
  | fuel + 1, nodes, pre, depth, t =>
    if signal t then .error .aborted
    else
      renderRowExA cfg (styleForA cfg.style)
        (fun tr p d tt => renderTreeExA cfg signal fuel tr p d tt)
        (sortEntries nodes) pre depth (t + 1)

/-- Loop body of variant A's `renderNodes` without the abort
instrumentation. -/
def renderRowPureA (cfg : Config) (style : TreeStyle)
    (down : TreeLevel → String → Nat → String) :
    TreeLevel → String → Nat → String
  | [], _, _ => ""
  | (name, data) :: rest, pre, depth =>
    if !cfg.showFiles && !data.isDir then renderRowPureA cfg style down rest pre depth
    else
      let isLast := rest.isEmpty
      let connector := if isLast then style.lastBranch else style.branch
      let icon :=
        if cfg.style = "emoji" then
          if data.isDir then style.folderIcon else style.fileIcon
        else ""
      let lineContent :=
        name ++ (if data.isDir && cfg.trailingSlash then "/" else "") ++
          (if cfg.showSizes && !data.isDir then " (" ++ formatSize data.size ++ ")" else "")
      let line := pre ++ connector ++ icon ++ lineContent ++ "\n"
      line ++ (if data.isDir then
          down data.children (pre ++ (if isLast then style.space else style.vertical)) (depth + 1)
        else "") ++
        renderRowPureA cfg style down rest pre depth

/-- Variant A's `renderNodes` without the abort instrumentation, fuel in
place of the depth guard. -/
def renderTreePureA (cfg : Config) : Nat → TreeLevel → String → Nat → String
  | 0, _, _, _ => ""
  | fuel + 1, nodes, pre, depth =>
    renderRowPureA cfg (styleForA cfg.style)
      (fun tr p d => renderTreePureA cfg fuel tr p d)
      (sortEntries nodes) pre depth

/-- Variant A's `renderNodes nodes pre depth` (signal never set): the
depth guard `depth >= cfg.maxDepth` is `cfg.maxDepth - depth = 0`. -/
def renderNodesPureA (cfg : Config) (nodes : TreeLevel) (pre : String) (depth : Nat) : String :=
  renderTreePureA cfg (cfg.maxDepth - depth) nodes pre depth

/-- Loop body of variant B's `renderNodes`: identical to variant A except
that the `indent` style is special-cased — the line indent is
`'  '.repeat(depth + 1)` and the accumulated `pre` is passed on
unchanged. -/
def renderRowExB (cfg : Config) (style : TreeStyle)
    (down : TreeLevel → String → Nat → Nat → Except BuildErr (String × Nat)) :
    TreeLevel → String → Nat → Nat → Except BuildErr (String × Nat)
  | [], _, _, t => .ok ("", t)
  | (name, data) :: rest, pre, depth, t =>
    if !cfg.showFiles && !data.isDir then renderRowExB cfg style down rest pre depth t
    else
      let isLast := rest.isEmpty
      let linePre :=
        if cfg.style = "indent" then repeatStr "  " (depth + 1)
        else pre ++ (if isLast then style.lastBranch else style.branch)
      let icon :=
        if cfg.style = "emoji" then
          if data.isDir then style.folderIcon else style.fileIcon
        else ""
      let lineContent :=
        name ++ (if data.isDir && cfg.trailingSlash then "/" else "") ++
          (if cfg.showSizes && !data.isDir then " (" ++ formatSize data.size ++ ")" else "")
      let line := linePre ++ icon ++ lineContent ++ "\n"
      if data.isDir then
        let nextPre :=
          if cfg.style = "indent" then pre
          else pre ++ (if isLast then style.space else style.vertical)
        match down data.children nextPre (depth + 1) t with
        | .error e => .error e
        | .ok (sub, t1) =>
          match renderRowExB cfg style down rest pre depth t1 with
          | .error e => .error e
          | .ok (tail, t2) => .ok (line ++ sub ++ tail, t2)
      else
        match renderRowExB cfg style down rest pre depth t with
        | .error e => .error e
        | .ok (tail, t1) => .ok (line ++ tail, t1)

/-- Variant B's `renderNodes` with its abort check (fuel encodes the depth
guard as for variant A). -/
def renderTreeExB (cfg : Config) (signal : Nat → Bool) :
    Nat → TreeLevel → String → Nat → Nat → Except BuildErr (String × Nat)
  | 0, _, _, _, t => .ok ("", t)
  | fuel + 1, nodes, pre, depth, t =>
    if signal t then .error .aborted
    else
      renderRowExB cfg (styleForB cfg.style)
        (fun tr p d tt => renderTreeExB cfg signal fuel tr p d tt)
        (sortEntries nodes) pre depth (t + 1)

/-- Loop body of variant B's `renderNodes` without the abort
instrumentation. -/
def renderRowPureB (cfg : Config) (style : TreeStyle)
    (down : TreeLevel → String → Nat → String) :
    TreeLevel → String → Nat → String
  | [], _, _ => ""
  | (name, data) :: rest, pre, depth =>
    if !cfg.showFiles && !data.isDir then renderRowPureB cfg style down rest pre depth
    else
      let isLast := rest.isEmpty
      let linePre :=
        if cfg.style = "indent" then repeatStr "  " (depth + 1)
        else pre ++ (if isLast then style.lastBranch else style.branch)
      let icon :=
        if cfg.style = "emoji" then
          if data.isDir then style.folderIcon else style.fileIcon
        else ""
      let lineContent :=
        name ++ (if data.isDir && cfg.trailingSlash then "/" else "") ++
          (if cfg.showSizes && !data.isDir then " (" ++ formatSize data.size ++ ")" else "")
      let line := linePre ++ icon ++ lineContent ++ "\n"
      let nextPre :=
        if cfg.style = "indent" then pre
        else pre ++ (if isLast then style.space else style.vertical)
      line ++ (if data.isDir then down data.children nextPre (depth + 1) else "") ++
        renderRowPureB cfg style down rest pre depth

/-- Variant B's `renderNodes` without the abort instrumentation. -/
def renderTreePureB (cfg : Config) : Nat → TreeLevel → String → Nat → String
  | 0, _, _, _ => ""
  | fuel + 1, nodes, pre, depth =>
    renderRowPureB cfg (styleForB cfg.style)
      (fun tr p d => renderTreePureB cfg fuel tr p d)
      (sortEntries nodes) pre depth

/-- Variant B's `renderNodes nodes pre depth` (signal never set). -/
def renderNodesPureB (cfg : Config) (nodes : TreeLevel) (pre : String) (depth : Nat) : String :=
  renderTreePureB cfg (cfg.maxDepth - depth) nodes pre depth

/-- One full `buildTreeAsync` pass of variant A (chunk size 2000):
build the hierarchy and statistics, then either serialize (`json` style)
or emit the root line followed by the rendered body. -/
def buildTreeAsyncA (files : List (String × Nat)) (cfg : Config) (root : String)
    (signal : Nat → Bool) : Except BuildErr (String × Stats) :=
  match buildLoopChunk cfg signal 2000 files 0 ([], ⟨0, 0, 0⟩) with
  | .error e => .error e
  | .ok (tree, stats) =>
    if cfg.style = "json" then .ok (jsonTree tree 0, stats)
    else
      let rootLabel := if cfg.trailingSlash then root ++ "/" else root
      let rootSizeInfo := if cfg.showSizes then " (" ++ formatSize stats.totalSize ++ ")" else ""
      match renderTreeExA cfg signal cfg.maxDepth tree "" 0 0 with
      | .error e => .error e
      | .ok (body, _) => .ok (rootLabel ++ rootSizeInfo ++ "\n" ++ body, stats)

/-- One full `buildTreeAsync` pass of variant B (chunk size 1500). -/
def buildTreeAsyncB (files : List (String × Nat)) (cfg : Config) (root : String)
    (signal : Nat → Bool) : Except BuildErr (String × Stats) :=
  match buildLoopChunk cfg signal 1500 files 0 ([], ⟨0, 0, 0⟩) with
  | .error e => .error e
  | .ok (tree, stats) =>
    if cfg.style = "json" then .ok (jsonTree tree 0, stats)
    else
      let rootLabel := if cfg.trailingSlash then root ++ "/" else root
      let rootSizeInfo := if cfg.showSizes then " (" ++ formatSize stats.totalSize ++ ")" else ""
      match renderTreeExB cfg signal cfg.maxDepth tree "" 0 0 with
      | .error e => .error e
      | .ok (body, _) => .ok (rootLabel ++ rootSizeInfo ++ "\n" ++ body, stats)

/-- One full pass of variant A with the signal never set (the outcome of
an uninterrupted pass). -/
def generatePureA (files : List (String × Nat)) (cfg : Config) (root : String) :
    Except BuildErr (String × Stats) :=
  match buildPure files cfg with
  | .error e => .error e
  | .ok (tree, stats) =>
    if cfg.style = "json" then .ok (jsonTree tree 0, stats)
    else
      let rootLabel := if cfg.trailingSlash then root ++ "/" else root
      let rootSizeInfo := if cfg.showSizes then " (" ++ formatSize stats.totalSize ++ ")" else ""
      .ok (rootLabel ++ rootSizeInfo ++ "\n" ++ renderNodesPureA cfg tree "" 0, stats)

/-- One full pass of variant B with the signal never set. -/
def generatePureB (files : List (String × Nat)) (cfg : Config) (root : String) :
    Except BuildErr (String × Stats) :=
  match buildPure files cfg with
  | .error e => .error e
  | .ok (tree, stats) =>
    if cfg.style = "json" then .ok (jsonTree tree 0, stats)
    else
      let rootLabel := if cfg.trailingSlash then root ++ "/" else root
      let rootSizeInfo := if cfg.showSizes then " (" ++ formatSize stats.totalSize ++ ")" else ""
      .ok (rootLabel ++ rootSizeInfo ++ "\n" ++ renderNodesPureB cfg tree "" 0, stats)

/-- Result publication of the generation driver (`generate` in the
source): a successful pass replaces text and statistics; a cancelled pass
(`err.message === 'Aborted'`) publishes nothing; any other error replaces
the text with an error message and leaves the statistics unchanged. -/
def publish (prev : String × Stats) (outcome : Except BuildErr (String × Stats)) :
    String × Stats :=
  match outcome with
  | .ok r => r
  | .error .aborted => prev
  | .error e => ("Error: " ++ e.message, prev.2)

/-- Signal that is never set. -/
def sigFalse : Nat → Bool := fun _ => false

mutual

/-- Directory-node count of a node (used to state that statistics equal
the node counts of the built hierarchy). -/
def nodeDirs : TreeNode → Nat
  | .file _ => 0
  | .dir ch => 1 + levelDirs ch

/-- Directory-node count of a children map. -/
def levelDirs : TreeLevel → Nat
  | [] => 0
  | e :: rest => nodeDirs e.2 + levelDirs rest

end

mutual

/-- File-node count of a node. -/
def nodeFiles : TreeNode → Nat
  | .file _ => 1
  | .dir ch => levelFiles ch

/-- File-node count of a children map. -/
def levelFiles : TreeLevel → Nat
  | [] => 0
  | e :: rest => nodeFiles e.2 + levelFiles rest

end

mutual

/-- Total size of the file nodes of a node. -/
def nodeBytes : TreeNode → Nat
  | .file s => s
  | .dir ch => levelBytes ch

/-- Total size of the file nodes of a children map. -/
def levelBytes : TreeLevel → Nat
  | [] => 0
  | e :: rest => nodeBytes e.2 + levelBytes rest

end

/-- Truncation of a hierarchy to its top `b` levels (every node deeper
than `b` removed).  Used to state the depth law: the renderer started
with fuel `b` reads nothing below the cut. -/
def truncLevel : Nat → TreeLevel → TreeLevel
  | 0, _ => []
  | b + 1, level =>
    level.map (fun e =>
      (e.1, match e.2 with
            | .file s => .file s
            | .dir ch => .dir (truncLevel b ch)))

/-- Truncation of a single node to `b` further levels below it. -/
def truncNode (b : Nat) : TreeNode → TreeNode
  | .file s => .file s
  | .dir ch => .dir (truncLevel b ch)

/-- Truncation of one children-map entry. -/
def truncEntry (b : Nat) (e : String × TreeNode) : String × TreeNode :=
  (e.1, truncNode b e.2)

/-- Well-formedness of a node: children keys are unique at every level
("a given path prefix maps to exactly one node"). -/
inductive NodeWF : TreeNode → Prop where
  | file (s : Nat) : NodeWF (.file s)
  | dir (ch : TreeLevel) (hk : (ch.map Prod.fst).Nodup)
      (hc : ∀ e ∈ ch, NodeWF e.2) : NodeWF (.dir ch)

/-- Well-formedness of a children map. -/
def LevelWF (level : TreeLevel) : Prop :=
  (level.map Prod.fst).Nodup ∧ ∀ e ∈ level, NodeWF e.2

/-- The path list of the concrete scenario of §8 of the specification. -/
def scenarioFiles : List (String × Nat) :=
  [("root/a.txt", 10), ("root/sub/b.txt", 20), ("root/sub/.git/x", 5)]

/-- The configuration of the concrete scenario of §8. -/
def scenarioCfg : Config :=
  { maxDepth := 10, style := "classic", ignores := [".git"], showFiles := true,
    showSizes := false, trailingSlash := false, showStats := true }

/-- Exact serialization the engine produces for the §8 scenario under the
`json` style (insertion order: `a.txt` first, then `sub`). -/
def scenarioJson : String :=
  "\x7b\n  \"a.txt\": \x7b\n    \"_type\": \"file\",\n    \"size\": 10\n  \x7d,\n  \"sub\": \x7b\n    \"_type\": \"dir\",\n    \"_children\": \x7b\n      \"b.txt\": \x7b\n        \"_type\": \"file\",\n        \"size\": 20\n      \x7d\n    \x7d\n  \x7d\n\x7d"

/-! ### Order properties of the sort comparator -/

theorem charsCmp_eq_iff : ∀ as bs : List Char, charsCmp as bs = .eq ↔ as = bs := by
  intro as
  induction as with
  | nil => intro bs; cases bs <;> simp [charsCmp]
  | cons a as ih =>
    intro bs
    cases bs with
    | nil => simp [charsCmp]
    | cons b bs =>
      simp only [charsCmp]
      rcases lt_trichotomy a b with h | h | h
      · rw [if_pos h]
        constructor
        · intro habs; exact absurd habs (by simp)
        · intro habs; cases habs; exact absurd h (lt_irrefl _)
      · subst h
        rw [if_neg (lt_irrefl a), if_neg (lt_irrefl a)]
        rw [ih bs]
        constructor
        · intro hh; rw [hh]
        · intro hh; injection hh
      · rw [if_neg (not_lt_of_gt h), if_pos h]
        constructor
        · intro habs; exact absurd habs (by simp)
        · intro habs; cases habs; exact absurd h (lt_irrefl _)

theorem charsCmp_swap : ∀ as bs : List Char, charsCmp bs as = (charsCmp as bs).swap := by
  intro as
  induction as with
  | nil => intro bs; cases bs <;> simp [charsCmp, Ordering.swap]
  | cons a as ih =>
    intro bs
    cases bs with
    | nil => simp [charsCmp, Ordering.swap]
    | cons b bs =>
      simp only [charsCmp]
      rcases lt_trichotomy a b with h | h | h
      · rw [if_neg (not_lt_of_gt h), if_pos h, if_pos h]; rfl
      · subst h
        rw [if_neg (lt_irrefl a), if_neg (lt_irrefl a), if_neg (lt_irrefl a),
            if_neg (lt_irrefl a)]
        exact ih bs
      · rw [if_pos h, if_neg (not_lt_of_gt h), if_pos h]; rfl

theorem charsCmp_lt_trans : ∀ as bs cs : List Char,
    charsCmp as bs = .lt → charsCmp bs cs = .lt → charsCmp as cs = .lt := by
  intro as
  induction as with
  | nil =>
    intro bs cs h1 h2
    cases bs with
    | nil => exact h2
    | cons b bs =>
      cases cs with
      | nil => simp [charsCmp] at h2
      | cons c cs => simp [charsCmp]
  | cons a as ih =>
    intro bs cs h1 h2
    cases bs with
    | nil => simp [charsCmp] at h1
    | cons b bs =>
      cases cs with
      | nil => simp [charsCmp] at h2
      | cons c cs =>
        simp only [charsCmp] at h1 h2 ⊢
        rcases lt_trichotomy a b with hab | hab | hab
        · rcases lt_trichotomy b c with hbc | hbc | hbc
          · rw [if_pos (lt_trans hab hbc)]
          · subst hbc; rw [if_pos hab]
          · rw [if_neg (not_lt_of_gt hbc), if_pos hbc] at h2; exact absurd h2 (by simp)
        · subst hab
          rcases lt_trichotomy a c with hac | hac | hac
          · rw [if_pos hac]
          · subst hac
            rw [if_neg (lt_irrefl a), if_neg (lt_irrefl a)] at h1 h2 ⊢
            exact ih bs cs h1 h2
          · rw [if_neg (not_lt_of_gt hac), if_pos hac] at h2; exact absurd h2 (by simp)
        · rw [if_neg (not_lt_of_gt hab), if_pos hab] at h1; exact absurd h1 (by simp)

theorem localeCompare_eq_iff (a b : String) : localeCompare a b = .eq ↔ a = b := by
  unfold localeCompare
  constructor
  · intro h
    rcases hlow : charsCmp (a.data.map Char.toLower) (b.data.map Char.toLower) with _ | _ | _ <;>
      rw [hlow] at h
    · exact absurd h (by simp)
    · exact String.ext ((charsCmp_eq_iff a.data b.data).mp h)
    · exact absurd h (by simp)
  · intro h; subst h
    rw [(charsCmp_eq_iff _ _).mpr rfl, (charsCmp_eq_iff _ _).mpr rfl]

theorem localeCompare_swap (a b : String) : localeCompare b a = (localeCompare a b).swap := by
  unfold localeCompare
  rw [charsCmp_swap (a.data.map Char.toLower) (b.data.map Char.toLower),
      charsCmp_swap a.data b.data]
  rcases charsCmp (a.data.map Char.toLower) (b.data.map Char.toLower) with _ | _ | _ <;> rfl

theorem localeCompare_lt_trans {a b c : String} (h1 : localeCompare a b = .lt)
    (h2 : localeCompare b c = .lt) : localeCompare a c = .lt := by
  unfold localeCompare at h1 h2 ⊢
  rcases hab : charsCmp (a.data.map Char.toLower) (b.data.map Char.toLower) with _ | _ | _ <;>
    rw [hab] at h1
  · rcases hbc : charsCmp (b.data.map Char.toLower) (c.data.map Char.toLower) with _ | _ | _ <;>
      rw [hbc] at h2
    · rw [charsCmp_lt_trans _ _ _ hab hbc]
    · have hedata := (charsCmp_eq_iff _ _).mp hbc
      rw [← hedata, hab]
    · exact absurd h2 (by simp)
  · have hedata := (charsCmp_eq_iff _ _).mp hab
    rcases hbc : charsCmp (b.data.map Char.toLower) (c.data.map Char.toLower) with _ | _ | _ <;>
      rw [hbc] at h2
    · rw [hedata, hbc]
    · rw [hedata, hbc]
      have hbc2 := (charsCmp_eq_iff _ _).mp hbc
      exact charsCmp_lt_trans _ _ _ h1 h2
    · exact absurd h2 (by simp)
  · exact absurd h1 (by simp)

theorem entriesCmp_congr_right {b c : String × TreeNode} (a : String × TreeNode)
    (hn : b.1 = c.1) (hd : b.2.isDir = c.2.isDir) : entriesCmp a b = entriesCmp a c := by
  unfold entriesCmp
  rw [hn, hd]

theorem entriesCmp_congr_left {a b : String × TreeNode} (c : String × TreeNode)
    (hn : a.1 = b.1) (hd : a.2.isDir = b.2.isDir) : entriesCmp a c = entriesCmp b c := by
  unfold entriesCmp
  rw [hn, hd]

theorem entriesCmp_swap (a b : String × TreeNode) :
    entriesCmp b a = (entriesCmp a b).swap := by
  unfold entriesCmp
  cases ha : a.2.isDir <;> cases hb : b.2.isDir <;> simp only []
  · exact localeCompare_swap a.1 b.1
  · rfl
  · rfl
  · exact localeCompare_swap a.1 b.1

theorem entriesCmp_eq_of (a b : String × TreeNode) (h : entriesCmp a b = .eq) :
    a.1 = b.1 ∧ a.2.isDir = b.2.isDir := by
  unfold entriesCmp at h
  cases ha : a.2.isDir <;> cases hb : b.2.isDir <;> rw [ha, hb] at h <;>
    simp only [] at h
  · exact ⟨(localeCompare_eq_iff _ _).mp h, rfl⟩
  · exact absurd h (by simp)
  · exact absurd h (by simp)
  · exact ⟨(localeCompare_eq_iff _ _).mp h, rfl⟩

theorem entriesCmp_lt_trans {a b c : String × TreeNode} (h1 : entriesCmp a b = .lt)
    (h2 : entriesCmp b c = .lt) : entriesCmp a c = .lt := by
  unfold entriesCmp at h1 h2 ⊢
  cases ha : a.2.isDir <;> cases hb : b.2.isDir <;> cases hc : c.2.isDir <;>
    rw [ha, hb] at h1 <;> rw [hb, hc] at h2 <;>
    first
      | rfl
      | exact localeCompare_lt_trans h1 h2
      | exact Ordering.noConfusion h1
      | exact Ordering.noConfusion h2

instance : IsTotal (String × TreeNode) entryRel where
  total := by
    intro a b
    unfold entryRel
    rcases h : entriesCmp a b with _ | _ | _
    · left; simp
    · left; simp
    · right
      rw [entriesCmp_swap, h]
      simp [Ordering.swap]

instance : IsTrans (String × TreeNode) entryRel where
  trans := by
    intro a b c hab hbc
    unfold entryRel at hab hbc ⊢
    rcases h1 : entriesCmp a b with _ | _ | _ <;> rw [h1] at hab
    · rcases h2 : entriesCmp b c with _ | _ | _ <;> rw [h2] at hbc
      · rw [entriesCmp_lt_trans h1 h2]; simp
      · obtain ⟨hn, hd⟩ := entriesCmp_eq_of b c h2
        rw [← entriesCmp_congr_right a hn hd, h1]; simp
      · exact absurd rfl hbc
    · obtain ⟨hn, hd⟩ := entriesCmp_eq_of a b h1
      rw [entriesCmp_congr_left c hn hd]
      exact hbc
    · exact absurd rfl hab

theorem sortEntries_sorted (nodes : TreeLevel) : List.Sorted entryRel (sortEntries nodes) :=
  List.sorted_insertionSort entryRel nodes

theorem sortEntries_perm (nodes : TreeLevel) : (sortEntries nodes).Perm nodes :=
  List.perm_insertionSort entryRel nodes

theorem entryRel_antisymm_name {a b : String × TreeNode} (h1 : entryRel a b)
    (h2 : entryRel b a) : a.1 = b.1 := by
  unfold entryRel at h1 h2
  rcases h : entriesCmp a b with _ | _ | _
  · rw [entriesCmp_swap, h] at h2
    exact absurd rfl h2
  · exact (entriesCmp_eq_of a b h).1
  · rw [h] at h1; exact absurd rfl h1

theorem sorted_perm_nodup_eq : ∀ {l1 l2 : TreeLevel}, l1.Perm l2 →
    List.Sorted entryRel l1 → List.Sorted entryRel l2 →
    (l1.map Prod.fst).Nodup → l1 = l2 := by
  intro l1
  induction l1 with
  | nil =>
    intro l2 hp _ _ _
    exact (hp.symm.eq_nil).symm
  | cons a t1 ih =>
    intro l2 hp hs1 hs2 hn
    rw [List.map_cons] at hn
    have hn2 := List.nodup_cons.mp hn
    cases l2 with
    | nil => exact absurd hp.eq_nil (by simp)
    | cons b t2 =>
      by_cases hab : a = b
      · subst hab
        have hp2 := hp.cons_inv
        have := ih hp2 (List.sorted_cons.mp hs1).2 (List.sorted_cons.mp hs2).2 hn2.2
        rw [this]
      · exfalso
        have hamem : a ∈ b :: t2 := hp.subset (by simp)
        have hbmem : b ∈ a :: t1 := hp.symm.subset (by simp)
        have hat2 : a ∈ t2 := by
          rcases List.mem_cons.mp hamem with h | h
          · exact absurd h hab
          · exact h
        have hbt1 : b ∈ t1 := by
          rcases List.mem_cons.mp hbmem with h | h
          · exact absurd h.symm hab
          · exact h
        have hba : entryRel b a := (List.sorted_cons.mp hs2).1 a hat2
        have hab2 : entryRel a b := (List.sorted_cons.mp hs1).1 b hbt1
        have hname := entryRel_antisymm_name hab2 hba
        have : a.1 ∈ t1.map Prod.fst := by
          rw [hname]
          exact List.mem_map_of_mem Prod.fst hbt1
        exact hn2.1 this

theorem sortEntries_insensitive (nodes nodes2 : TreeLevel) (hp : nodes.Perm nodes2)
    (hn : (nodes.map Prod.fst).Nodup) : sortEntries nodes = sortEntries nodes2 :=
  sorted_perm_nodup_eq
    ((sortEntries_perm nodes).trans (hp.trans (sortEntries_perm nodes2).symm))
    (sortEntries_sorted nodes) (sortEntries_sorted nodes2)
    (((sortEntries_perm nodes).map Prod.fst).nodup_iff.mpr hn)

/-! ### Statistics equal the node counts of the built hierarchy -/

theorem levelDirs_append (l1 l2 : TreeLevel) :
    levelDirs (l1 ++ l2) = levelDirs l1 + levelDirs l2 := by
  induction l1 with
  | nil => simp [levelDirs]
  | cons e rest ih => simp [levelDirs, ih]; omega

theorem levelFiles_append (l1 l2 : TreeLevel) :
    levelFiles (l1 ++ l2) = levelFiles l1 + levelFiles l2 := by
  induction l1 with
  | nil => simp [levelFiles]
  | cons e rest ih => simp [levelFiles, ih]; omega

theorem levelBytes_append (l1 l2 : TreeLevel) :
    levelBytes (l1 ++ l2) = levelBytes l1 + levelBytes l2 := by
  induction l1 with
  | nil => simp [levelBytes]
  | cons e rest ih => simp [levelBytes, ih]; omega

theorem setVal_counts : ∀ (level : TreeLevel) (p : String) (v : TreeNode),
    findVal level p = some v → ∀ n : TreeNode,
    levelDirs (setVal level p n) + nodeDirs v = levelDirs level + nodeDirs n ∧
    levelFiles (setVal level p n) + nodeFiles v = levelFiles level + nodeFiles n ∧
    levelBytes (setVal level p n) + nodeBytes v = levelBytes level + nodeBytes n := by
  intro level
  induction level with
  | nil => intro p v h n; simp [findVal] at h
  | cons e rest ih =>
    intro p v h n
    obtain ⟨k, w⟩ := e
    simp only [findVal] at h
    by_cases hk : k = p
    · rw [if_pos hk] at h
      injection h with h
      subst h
      simp only [setVal, if_pos hk, levelDirs, levelFiles, levelBytes]
      omega
    · rw [if_neg hk] at h
      obtain ⟨h1, h2, h3⟩ := ih p v h n
      simp only [setVal, if_neg hk, levelDirs, levelFiles, levelBytes]
      omega

theorem insertParts_stats : ∀ (parts : List String) (level : TreeLevel) (size : Nat)
    (s : Stats) (l2 : TreeLevel) (s2 : Stats),
    insertParts level parts size s = .ok (l2, s2) →
    s2.dirs + levelDirs level = s.dirs + levelDirs l2 ∧
    s2.files + levelFiles level = s.files + levelFiles l2 ∧
    s2.totalSize + levelBytes level = s.totalSize + levelBytes l2 := by
  intro parts
  induction parts with
  | nil =>
    intro level size s l2 s2 h
    simp only [insertParts] at h
    injection h with h
    injection h with h1 h2
    subst h1; subst h2
    exact ⟨rfl, rfl, rfl⟩
  | cons p rest ih =>
    intro level size s l2 s2 h
    cases rest with
    | nil =>
      simp only [insertParts] at h
      cases hf : findVal level p with
      | some v =>
        rw [hf] at h
        injection h with h
        injection h with h1 h2
        subst h1; subst h2
        exact ⟨rfl, rfl, rfl⟩
      | none =>
        rw [hf] at h
        injection h with h
        injection h with h1 h2
        subst h1; subst h2
        refine ⟨?_, ?_, ?_⟩ <;>
          simp [levelDirs_append, levelFiles_append, levelBytes_append,
            levelDirs, levelFiles, levelBytes, nodeDirs, nodeFiles, nodeBytes] <;>
          omega
    | cons q rest2 =>
      simp only [insertParts] at h
      split at h
      · rename_i ch hf
        split at h
        · rename_i ch2 s3 hins
          injection h with h
          injection h with h1 h2
          subst h1; subst h2
          obtain ⟨i1, i2, i3⟩ := ih _ _ _ _ _ hins
          obtain ⟨v1, v2, v3⟩ := setVal_counts level p (.dir ch) hf (.dir ch2)
          simp only [nodeDirs, nodeFiles, nodeBytes] at v1 v2 v3
          omega
        · exact absurd h (by simp)
      · exact absurd h (by simp)
      · rename_i hf
        split at h
        · rename_i ch2 s3 hins
          injection h with h
          injection h with h1 h2
          subst h1; subst h2
          obtain ⟨i1, i2, i3⟩ := ih _ _ _ _ _ hins
          simp only [levelDirs, levelFiles, levelBytes] at i1 i2 i3
          refine ⟨?_, ?_, ?_⟩ <;>
            simp [levelDirs_append, levelFiles_append, levelBytes_append,
              levelDirs, levelFiles, levelBytes, nodeDirs, nodeFiles, nodeBytes] <;>
            omega
        · exact absurd h (by simp)

/-! ### Lookup and update helpers -/

theorem findVal_none_iff : ∀ (level : TreeLevel) (p : String),
    findVal level p = none ↔ p ∉ level.map Prod.fst := by
  intro level p
  induction level with
  | nil => simp [findVal]
  | cons e rest ih =>
    obtain ⟨k, v⟩ := e
    simp only [findVal, List.map_cons, List.mem_cons]
    by_cases hk : k = p
    · rw [if_pos hk]
      simp [hk]
    · rw [if_neg hk]
      rw [ih]
      constructor
      · intro h hc
        rcases hc with hc | hc
        · exact hk hc.symm
        · exact h hc
      · intro h
        intro hc
        exact h (Or.inr hc)

theorem findVal_mem : ∀ (level : TreeLevel) (p : String) (v : TreeNode),
    findVal level p = some v → (p, v) ∈ level := by
  intro level p v
  induction level with
  | nil => intro h; simp [findVal] at h
  | cons e rest ih =>
    obtain ⟨k, w⟩ := e
    intro h
    simp only [findVal] at h
    by_cases hk : k = p
    · rw [if_pos hk] at h
      injection h with h
      subst hk; subst h
      simp
    · rw [if_neg hk] at h
      exact List.mem_cons_of_mem _ (ih h)

theorem findVal_append_right : ∀ (level : TreeLevel) (p : String) (n : TreeNode),
    findVal level p = none → findVal (level ++ [(p, n)]) p = some n := by
  intro level p n
  induction level with
  | nil => intro _; simp [findVal]
  | cons e rest ih =>
    obtain ⟨k, w⟩ := e
    intro h
    simp only [findVal] at h ⊢
    by_cases hk : k = p
    · rw [if_pos hk] at h; exact absurd h (by simp)
    · rw [if_neg hk] at h ⊢
      exact ih h

theorem findVal_setVal : ∀ (level : TreeLevel) (p : String) (v n : TreeNode),
    findVal level p = some v → findVal (setVal level p n) p = some n := by
  intro level p v n
  induction level with
  | nil => intro h; simp [findVal] at h
  | cons e rest ih =>
    obtain ⟨k, w⟩ := e
    intro h
    simp only [findVal, setVal] at h ⊢
    by_cases hk : k = p
    · rw [if_pos hk]
      simp [findVal]
    · rw [if_neg hk] at h ⊢
      simp only [findVal]
      rw [if_neg hk]
      exact ih h

theorem setVal_eq_of_findVal : ∀ (level : TreeLevel) (p : String) (n : TreeNode),
    findVal level p = some n → setVal level p n = level := by
  intro level p n
  induction level with
  | nil => intro _; rfl
  | cons e rest ih =>
    obtain ⟨k, w⟩ := e
    intro h
    simp only [findVal] at h
    simp only [setVal]
    by_cases hk : k = p
    · rw [if_pos hk] at h
      injection h with h
      rw [if_pos hk, ← hk, h]
    · rw [if_neg hk] at h
      rw [if_neg hk, ih h]

theorem setVal_map_fst : ∀ (level : TreeLevel) (p : String) (n : TreeNode),
    (setVal level p n).map Prod.fst = level.map Prod.fst := by
  intro level p n
  induction level with
  | nil => rfl
  | cons e rest ih =>
    obtain ⟨k, w⟩ := e
    simp only [setVal]
    by_cases hk : k = p
    · rw [if_pos hk]
      simp [hk]
    · rw [if_neg hk]
      simp [ih]

theorem setVal_mem : ∀ (level : TreeLevel) (p : String) (n : TreeNode) (e : String × TreeNode),
    e ∈ setVal level p n → e = (p, n) ∨ e ∈ level := by
  intro level p n
  induction level with
  | nil => intro e h; simp [setVal] at h
  | cons hd rest ih =>
    obtain ⟨k, w⟩ := hd
    intro e h
    simp only [setVal] at h
    by_cases hk : k = p
    · rw [if_pos hk] at h
      rcases List.mem_cons.mp h with h | h
      · exact Or.inl h
      · exact Or.inr (List.mem_cons_of_mem _ h)
    · rw [if_neg hk] at h
      rcases List.mem_cons.mp h with h | h
      · exact Or.inr (by simp [h])
      · rcases ih e h with h | h
        · exact Or.inl h
        · exact Or.inr (List.mem_cons_of_mem _ h)

/-! ### Well-formedness: unique keys at every level -/

theorem insertParts_WF : ∀ (parts : List String) (level : TreeLevel) (size : Nat)
    (s : Stats) (l2 : TreeLevel) (s2 : Stats),
    insertParts level parts size s = .ok (l2, s2) → LevelWF level → LevelWF l2 := by
  intro parts
  induction parts with
  | nil =>
    intro level size s l2 s2 h hw
    simp only [insertParts] at h
    injection h with h
    injection h with h1 h2
    subst h1
    exact hw
  | cons p rest ih =>
    intro level size s l2 s2 h hw
    cases rest with
    | nil =>
      simp only [insertParts] at h
      cases hf : findVal level p with
      | some v =>
        rw [hf] at h
        injection h with h
        injection h with h1 h2
        subst h1
        exact hw
      | none =>
        rw [hf] at h
        injection h with h
        injection h with h1 h2
        subst h1
        constructor
        · rw [List.map_append]
          simp only [List.map_cons, List.map_nil]
          apply List.Nodup.append hw.1 (by simp)
          simp only [List.disjoint_singleton]
          exact (findVal_none_iff level p).mp hf
        · intro e he
          rcases List.mem_append.mp he with he | he
          · exact hw.2 e he
          · simp at he
            rw [he]
            exact NodeWF.file size
    | cons q rest2 =>
      simp only [insertParts] at h
      split at h
      · rename_i ch hf
        split at h
        · rename_i ch2 s3 hins
          injection h with h
          injection h with h1 h2
          subst h1
          have hchWF : LevelWF ch := by
            have := hw.2 _ (findVal_mem level p _ hf)
            cases this with
            | dir ch hk hc => exact ⟨hk, hc⟩
          have hch2 := ih _ _ _ _ _ hins hchWF
          constructor
          · rw [setVal_map_fst]; exact hw.1
          · intro e he
            rcases setVal_mem level p (.dir ch2) e he with he | he
            · rw [he]
              exact NodeWF.dir ch2 hch2.1 hch2.2
            · exact hw.2 e he
        · exact absurd h (by simp)
      · exact absurd h (by simp)
      · rename_i hf
        split at h
        · rename_i ch2 s3 hins
          injection h with h
          injection h with h1 h2
          subst h1
          have hch2 := ih _ _ _ _ _ hins ⟨List.nodup_nil, by simp⟩
          constructor
          · rw [List.map_append]
            simp only [List.map_cons, List.map_nil]
            apply List.Nodup.append hw.1 (by simp)
            simp only [List.disjoint_singleton]
            exact (findVal_none_iff level p).mp hf
          · intro e he
            rcases List.mem_append.mp he with he | he
            · exact hw.2 e he
            · simp at he
              rw [he]
              exact NodeWF.dir ch2 hch2.1 hch2.2
        · exact absurd h (by simp)

/-! ### Idempotence of re-insertion -/

theorem insertParts_idem : ∀ (parts : List String) (level : TreeLevel) (size : Nat)
    (s : Stats) (l2 : TreeLevel) (s2 : Stats),
    insertParts level parts size s = .ok (l2, s2) →
    ∀ (size2 : Nat) (s3 : Stats), insertParts l2 parts size2 s3 = .ok (l2, s3) := by
  intro parts
  induction parts with
  | nil =>
    intro level size s l2 s2 h size2 s3
    simp only [insertParts] at h
    injection h with h
    injection h with h1 h2
    subst h1
    rfl
  | cons p rest ih =>
    intro level size s l2 s2 h size2 s3
    cases rest with
    | nil =>
      simp only [insertParts] at h ⊢
      cases hf : findVal level p with
      | some v =>
        rw [hf] at h
        injection h with h
        injection h with h1 h2
        subst h1
        rw [hf]
      | none =>
        rw [hf] at h
        injection h with h
        injection h with h1 h2
        subst h1
        rw [findVal_append_right level p _ hf]
    | cons q rest2 =>
      simp only [insertParts] at h ⊢
      split at h
      · rename_i ch hf
        split at h
        · rename_i ch2 s4 hins
          injection h with h
          injection h with h1 h2
          subst h1
          rw [findVal_setVal level p _ (.dir ch2) hf]
          simp only [ih _ _ _ _ _ hins size2 s3,
            setVal_eq_of_findVal _ _ _ (findVal_setVal level p _ (.dir ch2) hf)]
        · exact absurd h (by simp)
      · exact absurd h (by simp)
      · rename_i hf
        split at h
        · rename_i ch2 s4 hins
          injection h with h
          injection h with h1 h2
          subst h1
          rw [findVal_append_right level p _ hf]
          simp only [ih _ _ _ _ _ hins size2 s3,
            setVal_eq_of_findVal _ _ _ (findVal_append_right level p _ hf)]
        · exact absurd h (by simp)

/-! ### Entry-level and loop-level lemmas -/

theorem processEntry_stats (cfg : Config) (acc : TreeLevel × Stats) (f : String × Nat)
    (acc2 : TreeLevel × Stats) (h : processEntry cfg acc f = .ok acc2) :
    acc2.2.dirs + levelDirs acc.1 = acc.2.dirs + levelDirs acc2.1 ∧
    acc2.2.files + levelFiles acc.1 = acc.2.files + levelFiles acc2.1 ∧
    acc2.2.totalSize + levelBytes acc.1 = acc.2.totalSize + levelBytes acc2.1 := by
  unfold processEntry at h
  simp only [] at h
  split at h
  · injection h with h
    subst h
    exact ⟨rfl, rfl, rfl⟩
  · obtain ⟨t2, s2⟩ := acc2
    exact insertParts_stats _ _ _ _ _ _ h

theorem processEntry_WF (cfg : Config) (acc : TreeLevel × Stats) (f : String × Nat)
    (acc2 : TreeLevel × Stats) (h : processEntry cfg acc f = .ok acc2)
    (hw : LevelWF acc.1) : LevelWF acc2.1 := by
  unfold processEntry at h
  simp only [] at h
  split at h
  · injection h with h
    subst h
    exact hw
  · obtain ⟨t2, s2⟩ := acc2
    exact insertParts_WF _ _ _ _ _ _ h hw

theorem processEntry_idem (cfg : Config) (acc : TreeLevel × Stats) (f : String × Nat)
    (acc2 : TreeLevel × Stats) (h : processEntry cfg acc f = .ok acc2) :
    processEntry cfg acc2 f = .ok acc2 := by
  unfold processEntry at h ⊢
  simp only [] at h ⊢
  split at h
  · rename_i hig
    rw [if_pos hig]
  · rename_i hig
    rw [if_neg hig]
    obtain ⟨t2, s2⟩ := acc2
    exact insertParts_idem _ _ _ _ _ _ h f.2 s2

theorem processEntry_ignores_only (cfg1 cfg2 : Config) (h : cfg1.ignores = cfg2.ignores)
    (acc : TreeLevel × Stats) (f : String × Nat) :
    processEntry cfg1 acc f = processEntry cfg2 acc f := by
  unfold processEntry
  rw [h]

theorem buildLoopPure_stats : ∀ (files : List (String × Nat)) (cfg : Config)
    (acc : TreeLevel × Stats) (t2 : TreeLevel) (s2 : Stats),
    buildLoopPure cfg files acc = .ok (t2, s2) →
    s2.dirs + levelDirs acc.1 = acc.2.dirs + levelDirs t2 ∧
    s2.files + levelFiles acc.1 = acc.2.files + levelFiles t2 ∧
    s2.totalSize + levelBytes acc.1 = acc.2.totalSize + levelBytes t2 := by
  intro files
  induction files with
  | nil =>
    intro cfg acc t2 s2 h
    simp only [buildLoopPure] at h
    injection h with h
    rw [show acc = (t2, s2) from h]
    exact ⟨rfl, rfl, rfl⟩
  | cons f rest ih =>
    intro cfg acc t2 s2 h
    simp only [buildLoopPure] at h
    split at h
    · rename_i acc2 hstep
      obtain ⟨e1, e2, e3⟩ := processEntry_stats cfg acc f acc2 hstep
      obtain ⟨i1, i2, i3⟩ := ih cfg acc2 t2 s2 h
      exact ⟨by omega, by omega, by omega⟩
    · exact absurd h (by simp)

theorem buildPure_stats (files : List (String × Nat)) (cfg : Config) (t : TreeLevel)
    (s : Stats) (h : buildPure files cfg = .ok (t, s)) :
    s.dirs = levelDirs t ∧ s.files = levelFiles t ∧ s.totalSize = levelBytes t := by
  obtain ⟨e1, e2, e3⟩ := buildLoopPure_stats files cfg ([], ⟨0, 0, 0⟩) t s h
  simp only [levelDirs, levelFiles, levelBytes] at e1 e2 e3
  exact ⟨by omega, by omega, by omega⟩

theorem buildLoopPure_WF : ∀ (files : List (String × Nat)) (cfg : Config)
    (acc : TreeLevel × Stats) (t2 : TreeLevel) (s2 : Stats),
    buildLoopPure cfg files acc = .ok (t2, s2) → LevelWF acc.1 → LevelWF t2 := by
  intro files
  induction files with
  | nil =>
    intro cfg acc t2 s2 h hw
    simp only [buildLoopPure] at h
    injection h with h
    rw [show acc = (t2, s2) from h] at hw
    exact hw
  | cons f rest ih =>
    intro cfg acc t2 s2 h hw
    simp only [buildLoopPure] at h
    split at h
    · rename_i acc2 hstep
      exact ih cfg acc2 t2 s2 h (processEntry_WF cfg acc f acc2 hstep hw)
    · exact absurd h (by simp)

theorem buildPure_WF (files : List (String × Nat)) (cfg : Config) (t : TreeLevel)
    (s : Stats) (h : buildPure files cfg = .ok (t, s)) : LevelWF t :=
  buildLoopPure_WF files cfg ([], ⟨0, 0, 0⟩) t s h ⟨List.nodup_nil, by simp⟩

theorem buildLoopPure_ignores_only : ∀ (files : List (String × Nat)) (cfg1 cfg2 : Config),
    cfg1.ignores = cfg2.ignores → ∀ acc,
    buildLoopPure cfg1 files acc = buildLoopPure cfg2 files acc := by
  intro files
  induction files with
  | nil => intro cfg1 cfg2 _ acc; rfl
  | cons f rest ih =>
    intro cfg1 cfg2 h acc
    simp only [buildLoopPure]
    rw [processEntry_ignores_only cfg1 cfg2 h acc f]
    cases processEntry cfg2 acc f with
    | ok acc2 => exact ih cfg1 cfg2 h acc2
    | error e => rfl

theorem buildPure_ignores_only (files : List (String × Nat)) (cfg1 cfg2 : Config)
    (h : cfg1.ignores = cfg2.ignores) : buildPure files cfg1 = buildPure files cfg2 :=
  buildLoopPure_ignores_only files cfg1 cfg2 h ([], ⟨0, 0, 0⟩)

theorem buildLoopPure_append (cfg : Config) : ∀ (l1 l2 : List (String × Nat)) (acc : TreeLevel × Stats),
    buildLoopPure cfg (l1 ++ l2) acc =
      match buildLoopPure cfg l1 acc with
      | .ok acc2 => buildLoopPure cfg l2 acc2
      | .error e => .error e := by
  intro l1
  induction l1 with
  | nil => intro l2 acc; rfl
  | cons f rest ih =>
    intro l2 acc
    simp only [List.cons_append, buildLoopPure]
    cases processEntry cfg acc f with
    | ok acc2 => exact ih l2 acc2
    | error e => rfl

theorem buildLoopPure_skip (cfg : Config) (e : String × Nat)
    (hd : ((splitOnChar e.1 '/').drop 1).any (fun part => cfg.ignores.contains part) = true) :
    ∀ acc, buildLoopPure cfg (e :: []) acc = .ok acc := by
  intro acc
  simp only [buildLoopPure, processEntry]
  rw [if_pos hd]

theorem buildLoopPure_splice (cfg : Config) (l1 l2 : List (String × Nat)) (e : String × Nat)
    (hd : ((splitOnChar e.1 '/').drop 1).any (fun part => cfg.ignores.contains part) = true)
    (acc : TreeLevel × Stats) :
    buildLoopPure cfg (l1 ++ e :: l2) acc = buildLoopPure cfg (l1 ++ l2) acc := by
  rw [show l1 ++ e :: l2 = l1 ++ (e :: []) ++ l2 by simp]
  rw [buildLoopPure_append cfg (l1 ++ (e :: [])) l2 acc,
      buildLoopPure_append cfg l1 (e :: []) acc,
      buildLoopPure_append cfg l1 l2 acc]
  cases buildLoopPure cfg l1 acc with
  | ok acc2 => simp only [buildLoopPure_skip cfg e hd acc2]
  | error e2 => rfl

theorem buildPure_splice (l1 l2 : List (String × Nat)) (e : String × Nat) (cfg : Config)
    (hd : ((splitOnChar e.1 '/').drop 1).any (fun part => cfg.ignores.contains part) = true) :
    buildPure (l1 ++ e :: l2) cfg = buildPure (l1 ++ l2) cfg :=
  buildLoopPure_splice cfg l1 l2 e hd ([], ⟨0, 0, 0⟩)

theorem buildLoopPure_dup (cfg : Config) (l1 l2 : List (String × Nat)) (e : String × Nat)
    (acc : TreeLevel × Stats) :
    buildLoopPure cfg (l1 ++ e :: e :: l2) acc = buildLoopPure cfg (l1 ++ e :: l2) acc := by
  rw [buildLoopPure_append cfg l1 (e :: e :: l2) acc, buildLoopPure_append cfg l1 (e :: l2) acc]
  cases buildLoopPure cfg l1 acc with
  | ok acc2 =>
    simp only [buildLoopPure]
    cases hstep : processEntry cfg acc2 e with
    | ok acc3 =>
      simp only [buildLoopPure]
      rw [processEntry_idem cfg acc2 e acc3 hstep]
    | error e2 => rfl
  | error e2 => rfl

theorem buildPure_dup (l1 l2 : List (String × Nat)) (e : String × Nat) (cfg : Config) :
    buildPure (l1 ++ e :: e :: l2) cfg = buildPure (l1 ++ e :: l2) cfg :=
  buildLoopPure_dup cfg l1 l2 e ([], ⟨0, 0, 0⟩)

/-! ### A pass whose signal is never set behaves like the pure pass -/

theorem buildLoopChunk_noabort (cfg : Config) (signal : Nat → Bool) (chunk : Nat)
    (hs : ∀ k, signal k = false) :
    ∀ (files : List (String × Nat)) (i : Nat) (acc : TreeLevel × Stats),
    buildLoopChunk cfg signal chunk files i acc = buildLoopPure cfg files acc := by
  intro files
  induction files with
  | nil => intro i acc; rfl
  | cons f rest ih =>
    intro i acc
    simp only [buildLoopChunk, buildLoopPure]
    by_cases hi : i % chunk = 0
    · rw [if_pos hi, if_neg (show ¬ signal (i / chunk) = true by simp [hs])]
      cases processEntry cfg acc f with
      | ok acc2 => exact ih (i + 1) acc2
      | error e => rfl
    · rw [if_neg hi]
      cases processEntry cfg acc f with
      | ok acc2 => exact ih (i + 1) acc2
      | error e => rfl

theorem renderRowExA_noabort (cfg : Config) (style : TreeStyle)
    (dEx : TreeLevel → String → Nat → Nat → Except BuildErr (String × Nat))
    (dP : TreeLevel → String → Nat → String)
    (hd : ∀ tr p d t, ∃ t2, dEx tr p d t = .ok (dP tr p d, t2)) :
    ∀ (ents : TreeLevel) (pre : String) (depth t : Nat),
    ∃ t2, renderRowExA cfg style dEx ents pre depth t =
      .ok (renderRowPureA cfg style dP ents pre depth, t2) := by
  intro ents
  induction ents with
  | nil => intro pre depth t; exact ⟨t, rfl⟩
  | cons e rest ih =>
    obtain ⟨name, data⟩ := e
    intro pre depth t
    simp only [renderRowExA, renderRowPureA]
    by_cases hskip : (!cfg.showFiles && !data.isDir) = true
    · rw [if_pos hskip, if_pos hskip]
      exact ih pre depth t
    · rw [if_neg hskip, if_neg hskip]
      by_cases hdir : data.isDir = true
      · obtain ⟨t1, hd1⟩ := hd data.children
          (pre ++ (if rest.isEmpty then style.space else style.vertical)) (depth + 1) t
        obtain ⟨t2, hih⟩ := ih pre depth t1
        exact ⟨t2, by simp [hdir, hd1, hih]⟩
      · obtain ⟨t1, hih⟩ := ih pre depth t
        exact ⟨t1, by simp [hdir, hih]⟩

theorem renderTreeExA_noabort (cfg : Config) (signal : Nat → Bool)
    (hs : ∀ k, signal k = false) :
    ∀ (fuel : Nat) (nodes : TreeLevel) (pre : String) (depth t : Nat),
    ∃ t2, renderTreeExA cfg signal fuel nodes pre depth t =
      .ok (renderTreePureA cfg fuel nodes pre depth, t2) := by
  intro fuel
  induction fuel with
  | zero => intro nodes pre depth t; exact ⟨t, rfl⟩
  | succ fuel ih =>
    intro nodes pre depth t
    simp only [renderTreeExA, renderTreePureA]
    rw [if_neg (show ¬ signal t = true by simp [hs])]
    exact renderRowExA_noabort cfg (styleForA cfg.style) _ _
      (fun tr p d tt => ih tr p d tt) (sortEntries nodes) pre depth (t + 1)

theorem renderRowExB_noabort (cfg : Config) (style : TreeStyle)
    (dEx : TreeLevel → String → Nat → Nat → Except BuildErr (String × Nat))
    (dP : TreeLevel → String → Nat → String)
    (hd : ∀ tr p d t, ∃ t2, dEx tr p d t = .ok (dP tr p d, t2)) :
    ∀ (ents : TreeLevel) (pre : String) (depth t : Nat),
    ∃ t2, renderRowExB cfg style dEx ents pre depth t =
      .ok (renderRowPureB cfg style dP ents pre depth, t2) := by
  intro ents
  induction ents with
  | nil => intro pre depth t; exact ⟨t, rfl⟩
  | cons e rest ih =>
    obtain ⟨name, data⟩ := e
    intro pre depth t
    simp only [renderRowExB, renderRowPureB]
    by_cases hskip : (!cfg.showFiles && !data.isDir) = true
    · rw [if_pos hskip, if_pos hskip]
      exact ih pre depth t
    · rw [if_neg hskip, if_neg hskip]
      by_cases hdir : data.isDir = true
      · obtain ⟨t1, hd1⟩ := hd data.children
          (if cfg.style = "indent" then pre
           else pre ++ (if rest.isEmpty then style.space else style.vertical)) (depth + 1) t
        obtain ⟨t2, hih⟩ := ih pre depth t1
        exact ⟨t2, by simp [hdir, hd1, hih]⟩
      · obtain ⟨t1, hih⟩ := ih pre depth t
        exact ⟨t1, by simp [hdir, hih]⟩

theorem renderTreeExB_noabort (cfg : Config) (signal : Nat → Bool)
    (hs : ∀ k, signal k = false) :
    ∀ (fuel : Nat) (nodes : TreeLevel) (pre : String) (depth t : Nat),
    ∃ t2, renderTreeExB cfg signal fuel nodes pre depth t =
      .ok (renderTreePureB cfg fuel nodes pre depth, t2) := by
  intro fuel
  induction fuel with
  | zero => intro nodes pre depth t; exact ⟨t, rfl⟩
  | succ fuel ih =>
    intro nodes pre depth t
    simp only [renderTreeExB, renderTreePureB]
    rw [if_neg (show ¬ signal t = true by simp [hs])]
    exact renderRowExB_noabort cfg (styleForB cfg.style) _ _
      (fun tr p d tt => ih tr p d tt) (sortEntries nodes) pre depth (t + 1)

theorem buildTreeAsyncA_noabort (files : List (String × Nat)) (cfg : Config) (root : String)
    (signal : Nat → Bool) (hs : ∀ k, signal k = false) :
    buildTreeAsyncA files cfg root signal = generatePureA files cfg root := by
  unfold buildTreeAsyncA generatePureA buildPure
  rw [buildLoopChunk_noabort cfg signal 2000 hs files 0 ([], ⟨0, 0, 0⟩)]
  cases buildLoopPure cfg files ([], ⟨0, 0, 0⟩) with
  | error e => rfl
  | ok r =>
    obtain ⟨tree, stats⟩ := r
    dsimp only
    by_cases hj : cfg.style = "json"
    · rw [if_pos hj, if_pos hj]
    · rw [if_neg hj, if_neg hj]
      obtain ⟨t2, hr⟩ := renderTreeExA_noabort cfg signal hs cfg.maxDepth tree "" 0 0
      rw [hr]
      rfl

theorem buildTreeAsyncB_noabort (files : List (String × Nat)) (cfg : Config) (root : String)
    (signal : Nat → Bool) (hs : ∀ k, signal k = false) :
    buildTreeAsyncB files cfg root signal = generatePureB files cfg root := by
  unfold buildTreeAsyncB generatePureB buildPure
  rw [buildLoopChunk_noabort cfg signal 1500 hs files 0 ([], ⟨0, 0, 0⟩)]
  cases buildLoopPure cfg files ([], ⟨0, 0, 0⟩) with
  | error e => rfl
  | ok r =>
    obtain ⟨tree, stats⟩ := r
    dsimp only
    by_cases hj : cfg.style = "json"
    · rw [if_pos hj, if_pos hj]
    · rw [if_neg hj, if_neg hj]
      obtain ⟨t2, hr⟩ := renderTreeExB_noabort cfg signal hs cfg.maxDepth tree "" 0 0
      rw [hr]
      rfl

/-! ### Cancellation observed at a build yield point aborts the pass -/

theorem buildLoopChunk_abort (cfg : Config) (signal : Nat → Bool) (chunk : Nat)
    (hchunk : 0 < chunk) :
    ∀ (files : List (String × Nat)) (i : Nat) (acc : TreeLevel × Stats),
    (∃ r, buildLoopPure cfg files acc = .ok r) →
    ∀ k, i ≤ k * chunk → k * chunk < i + files.length → signal k = true →
    buildLoopChunk cfg signal chunk files i acc = .error .aborted := by
  intro files
  induction files with
  | nil =>
    intro i acc _ k h1 h2 _
    simp only [List.length_nil] at h2
    omega
  | cons f rest ih =>
    intro i acc hok k h1 h2 hk
    have hstep : ∃ acc2, processEntry cfg acc f = .ok acc2 ∧
        ∃ r, buildLoopPure cfg rest acc2 = .ok r := by
      obtain ⟨r, hr⟩ := hok
      simp only [buildLoopPure] at hr
      cases hpe : processEntry cfg acc f with
      | ok acc2 =>
        rw [hpe] at hr
        exact ⟨acc2, rfl, r, hr⟩
      | error e => rw [hpe] at hr; exact absurd hr (by simp)
    obtain ⟨acc2, hpe, hrest⟩ := hstep
    simp only [buildLoopChunk]
    by_cases hi : i % chunk = 0
    · rw [if_pos hi]
      cases hsig : signal (i / chunk) with
      | true => rfl
      | false =>
        rw [if_neg (show ¬ (false = true) by simp)]
        rw [hpe]
        have hik : i ≠ k * chunk := by
          intro he
          rw [he, Nat.mul_div_cancel k hchunk] at hsig
          rw [hsig] at hk
          exact Bool.noConfusion hk
        exact ih (i + 1) acc2 hrest k (by omega) (by simp at h2 ⊢; omega) hk
    · rw [if_neg hi]
      rw [hpe]
      have hik : i ≠ k * chunk := by
        intro he
        rw [he] at hi
        exact hi (Nat.mul_mod_left k chunk)
      exact ih (i + 1) acc2 hrest k (by omega) (by simp at h2 ⊢; omega) hk

/-! ### The two source variants render identically -/

theorem styleFor_eq_of_ne_indent (s : String) (h : s ≠ "indent") :
    styleForA s = styleForB s := by
  unfold styleForA styleForB styleTableA styleTableB
  split_ifs <;> first | rfl | (exact absurd (by assumption) h)

theorem repeatStr_succ_right (s : String) : ∀ n, repeatStr s (n + 1) = repeatStr s n ++ s := by
  intro n
  induction n with
  | zero => simp [repeatStr]
  | succ n ih =>
    calc repeatStr s (n + 1 + 1) = s ++ repeatStr s (n + 1) := rfl
    _ = s ++ (repeatStr s n ++ s) := by rw [ih]
    _ = s ++ repeatStr s n ++ s := by rw [String.append_assoc]
    _ = repeatStr s (n + 1) ++ s := rfl

theorem renderRowPure_eq (cfg : Config) (h : ¬ cfg.style = "indent") (style : TreeStyle)
    (dA dB : TreeLevel → String → Nat → String) (hd : ∀ tr p d, dA tr p d = dB tr p d) :
    ∀ (ents : TreeLevel) (pre : String) (depth : Nat),
    renderRowPureA cfg style dA ents pre depth = renderRowPureB cfg style dB ents pre depth := by
  intro ents
  induction ents with
  | nil => intro pre depth; rfl
  | cons e rest ih =>
    obtain ⟨name, data⟩ := e
    intro pre depth
    simp only [renderRowPureA, renderRowPureB, if_neg h, hd, ih]

theorem renderTreePure_eq (cfg : Config) (h : ¬ cfg.style = "indent") :
    ∀ (fuel : Nat) (nodes : TreeLevel) (pre : String) (depth : Nat),
    renderTreePureA cfg fuel nodes pre depth = renderTreePureB cfg fuel nodes pre depth := by
  intro fuel
  induction fuel with
  | zero => intro nodes pre depth; rfl
  | succ fuel ih =>
    intro nodes pre depth
    simp only [renderTreePureA, renderTreePureB]
    rw [styleFor_eq_of_ne_indent cfg.style h]
    exact renderRowPure_eq cfg h (styleForB cfg.style) _ _
      (fun tr p d => ih tr p d) (sortEntries nodes) pre depth

theorem renderRowPure_indent (cfg : Config) (h : cfg.style = "indent")
    (dA dB : TreeLevel → String → Nat → String)
    (hd : ∀ (tr : TreeLevel) (preB : String) (d : Nat),
      dA tr (repeatStr "  " (d + 1)) (d + 1) = dB tr preB (d + 1)) :
    ∀ (ents : TreeLevel) (depth : Nat) (preB : String),
    renderRowPureA cfg indentStyleA dA ents (repeatStr "  " depth) depth =
      renderRowPureB cfg indentStyleB dB ents preB depth := by
  intro ents
  induction ents with
  | nil => intro depth preB; rfl
  | cons e rest ih =>
    obtain ⟨name, data⟩ := e
    intro depth preB
    have hem : ¬ cfg.style = "emoji" := by rw [h]; decide
    simp only [renderRowPureA, renderRowPureB]
    by_cases hskip : (!cfg.showFiles && !data.isDir) = true
    · rw [if_pos hskip, if_pos hskip]
      exact ih depth preB
    · rw [if_neg hskip, if_neg hskip]
      have e1 : indentStyleA.branch = "  " := rfl
      have e2 : indentStyleA.lastBranch = "  " := rfl
      have e3 : indentStyleA.vertical = "  " := rfl
      have e4 : indentStyleA.space = "  " := rfl
      simp only [if_pos h, if_neg hem, e1, e2, e3, e4, ite_self]
      rw [← repeatStr_succ_right]
      rw [ih depth preB]
      rw [hd data.children preB depth]

/-! ### Depth law: the renderer reads nothing below the fuel cut -/

theorem truncLevel_nil : ∀ b, truncLevel b [] = [] := by
  intro b
  cases b <;> rfl

theorem truncLevel_succ (b : Nat) (level : TreeLevel) :
    truncLevel (b + 1) level = level.map (truncEntry b) := by
  simp only [truncLevel, truncEntry]
  apply List.map_congr_left
  intro e _
  obtain ⟨k, v⟩ := e
  cases v <;> rfl

theorem truncEntry_isDir (b : Nat) (e : String × TreeNode) :
    (truncEntry b e).2.isDir = e.2.isDir := by
  obtain ⟨k, v⟩ := e
  cases v <;> rfl

theorem truncEntry_size (b : Nat) (e : String × TreeNode) :
    (truncEntry b e).2.size = e.2.size := by
  obtain ⟨k, v⟩ := e
  cases v <;> rfl

theorem truncEntry_children (b : Nat) (e : String × TreeNode) :
    (truncEntry b e).2.children = truncLevel b e.2.children := by
  obtain ⟨k, v⟩ := e
  cases v with
  | file s => simp [truncEntry, truncNode, TreeNode.children, truncLevel_nil]
  | dir ch => rfl

theorem entriesCmp_truncEntry (b : Nat) (x y : String × TreeNode) :
    entriesCmp (truncEntry b x) (truncEntry b y) = entriesCmp x y := by
  unfold entriesCmp
  rw [truncEntry_isDir, truncEntry_isDir]
  rfl

theorem sortEntries_map_truncEntry (b : Nat) (nodes : TreeLevel) :
    sortEntries (nodes.map (truncEntry b)) = (sortEntries nodes).map (truncEntry b) := by
  unfold sortEntries
  refine (List.map_insertionSort entryRel entryRel (truncEntry b) nodes ?_).symm
  intro x _ y _
  unfold entryRel
  rw [entriesCmp_truncEntry]

theorem renderRowPureA_trunc (cfg : Config) (style : TreeStyle) (b : Nat)
    (down1 down2 : TreeLevel → String → Nat → String)
    (hdown : ∀ ch p d, down1 (truncLevel b ch) p d = down2 ch p d) :
    ∀ (ents : TreeLevel) (pre : String) (depth : Nat),
    renderRowPureA cfg style down1 (ents.map (truncEntry b)) pre depth =
      renderRowPureA cfg style down2 ents pre depth := by
  intro ents
  induction ents with
  | nil => intro pre depth; rfl
  | cons e rest ih =>
    intro pre depth
    simp only [List.map_cons]
    rw [show truncEntry b e = ((truncEntry b e).1, (truncEntry b e).2) from rfl]
    rw [show e = (e.1, e.2) from rfl]
    have hie : (rest.map (truncEntry b)).isEmpty = rest.isEmpty := by cases rest <;> rfl
    simp only [renderRowPureA, truncEntry_isDir, hie,
      show (truncEntry b e).1 = e.1 from rfl, truncEntry_size, truncEntry_children, hdown, ih]

theorem renderTreePureA_trunc (cfg : Config) :
    ∀ (b : Nat) (nodes : TreeLevel) (pre : String) (depth : Nat),
    renderTreePureA cfg b (truncLevel b nodes) pre depth =
      renderTreePureA cfg b nodes pre depth := by
  intro b
  induction b with
  | zero => intro nodes pre depth; rfl
  | succ b ih =>
    intro nodes pre depth
    simp only [renderTreePureA]
    rw [truncLevel_succ, sortEntries_map_truncEntry]
    exact renderRowPureA_trunc cfg (styleForA cfg.style) b _ _
      (fun ch p d => ih ch p d) (sortEntries nodes) pre depth

theorem renderNodesPureA_trunc (cfg : Config) (nodes : TreeLevel) (pre : String) (depth : Nat) :
    renderNodesPureA cfg nodes pre depth =
      renderNodesPureA cfg (truncLevel (cfg.maxDepth - depth) nodes) pre depth :=
  (renderTreePureA_trunc cfg (cfg.maxDepth - depth) nodes pre depth).symm

/-! ### Size formatting -/

theorem formatSize_zero : formatSize 0 = "0 B" := rfl

theorem formatSize_ten : formatSize 10 = "10 B" := by
  have hl : Nat.log 1024 10 = 0 := by rw [Nat.log_eq_zero_iff]; left; norm_num
  unfold formatSize
  rw [if_neg (show ¬ (10 = 0) by norm_num), hl]
  rfl

theorem formatSize_kilo : formatSize 1024 = "1 KB" := by
  have hl : Nat.log 1024 1024 = 1 :=
    Nat.log_eq_of_pow_le_of_lt_pow (by norm_num) (by norm_num)
  unfold formatSize
  rw [if_neg (show ¬ (1024 = 0) by norm_num), hl]
  rfl

theorem formatSize_kilo_half : formatSize 1536 = "1.5 KB" := by
  have hl : Nat.log 1024 1536 = 1 :=
    Nat.log_eq_of_pow_le_of_lt_pow (by norm_num) (by norm_num)
  unfold formatSize
  rw [if_neg (show ¬ (1536 = 0) by norm_num), hl]
  rfl

theorem fix2_self (d : Nat) (hd : 0 < d) : fix2 d d = "1" := by
  unfold fix2
  have h1 : (200 * d + d) / (2 * d) = 100 := by
    rw [show 200 * d + d = 201 * d by ring, Nat.mul_div_mul_right 201 2 hd]
  simp only [h1]
  rfl

theorem formatSize_overflow : formatSize (1024 ^ 4) = "1 undefined" := by
  have hl : Nat.log 1024 (1024 ^ 4) = 4 := Nat.log_pow (by norm_num) 4
  unfold formatSize
  rw [if_neg (show ¬ (1024 ^ 4 = 0) by positivity), hl, fix2_self (1024 ^ 4) (by positivity)]
  rfl

theorem formatSize_unit_mem (b : Nat) (h0 : 0 < b) (h4 : b < 1024 ^ 4) :
    Nat.log 1024 b ≤ 3 ∧
    (["B", "KB", "MB", "GB"].getD (Nat.log 1024 b) "undefined") ∈ ["B", "KB", "MB", "GB"] ∧
    formatSize b = fix2 b (1024 ^ Nat.log 1024 b) ++ " " ++
      (["B", "KB", "MB", "GB"].getD (Nat.log 1024 b) "undefined") := by
  have hlt : Nat.log 1024 b < 4 := Nat.log_lt_of_lt_pow (by omega) h4
  refine ⟨by omega, ?_, ?_⟩
  · have hc : Nat.log 1024 b = 0 ∨ Nat.log 1024 b = 1 ∨ Nat.log 1024 b = 2 ∨
        Nat.log 1024 b = 3 := by omega
    rcases hc with hc | hc | hc | hc <;> rw [hc] <;> simp
  · unfold formatSize
    rw [if_neg (by omega)]

theorem fix2_shape (n d : Nat) :
    (∃ ip : Nat, fix2 n d = toString ip) ∨
    (∃ ip fr : Nat, 1 ≤ fr ∧ fr ≤ 9 ∧ fix2 n d = toString ip ++ "." ++ toString fr) ∨
    (∃ ip fr : Nat, 1 ≤ fr ∧ fr ≤ 9 ∧ fix2 n d = toString ip ++ ".0" ++ toString fr) ∨
    (∃ ip fr : Nat, 10 ≤ fr ∧ fr ≤ 99 ∧ fr % 10 ≠ 0 ∧
      fix2 n d = toString ip ++ "." ++ toString fr) := by
  unfold fix2
  simp only []
  have hfr : (200 * n + d) / (2 * d) % 100 < 100 := Nat.mod_lt _ (by norm_num)
  split_ifs with h1 h2 h3
  · exact Or.inl ⟨_, rfl⟩
  · refine Or.inr (Or.inl ⟨_, _, ?_, ?_, rfl⟩) <;> omega
  · refine Or.inr (Or.inr (Or.inl ⟨_, _, ?_, ?_, rfl⟩)) <;> omega
  · refine Or.inr (Or.inr (Or.inr ⟨_, _, ?_, ?_, ?_, rfl⟩)) <;> omega

/-! ### Assembly lemmas -/

theorem renderTreePure_indent (cfg : Config) (h : cfg.style = "indent") :
    ∀ (fuel : Nat) (nodes : TreeLevel) (depth : Nat) (preB : String),
    renderTreePureA cfg fuel nodes (repeatStr "  " depth) depth =
      renderTreePureB cfg fuel nodes preB depth := by
  intro fuel
  induction fuel with
  | zero => intro nodes depth preB; rfl
  | succ fuel ih =>
    intro nodes depth preB
    simp only [renderTreePureA, renderTreePureB]
    have hA : styleForA cfg.style = indentStyleA := by rw [h]; rfl
    have hB : styleForB cfg.style = indentStyleB := by rw [h]; rfl
    rw [hA, hB]
    exact renderRowPure_indent cfg h _ _ (fun tr preB2 d => ih tr (d + 1) preB2)
      (sortEntries nodes) depth preB

theorem generatePure_eq (files : List (String × Nat)) (cfg : Config) (root : String) :
    generatePureA files cfg root = generatePureB files cfg root := by
  unfold generatePureA generatePureB
  cases buildPure files cfg with
  | error e => rfl
  | ok r =>
    obtain ⟨tree, stats⟩ := r
    dsimp only
    by_cases hj : cfg.style = "json"
    · rw [if_pos hj, if_pos hj]
    · rw [if_neg hj, if_neg hj]
      unfold renderNodesPureA renderNodesPureB
      by_cases hind : cfg.style = "indent"
      · have heq : renderTreePureA cfg (cfg.maxDepth - 0) tree "" 0 =
            renderTreePureB cfg (cfg.maxDepth - 0) tree "" 0 :=
          renderTreePure_indent cfg hind (cfg.maxDepth - 0) tree 0 ""
        rw [heq]
      · rw [renderTreePure_eq cfg hind (cfg.maxDepth - 0) tree "" 0]

theorem buildTreeAsync_eq_of_noabort (files : List (String × Nat)) (cfg : Config)
    (root : String) (signal : Nat → Bool) (hs : ∀ k, signal k = false) :
    buildTreeAsyncA files cfg root signal = buildTreeAsyncB files cfg root signal := by
  rw [buildTreeAsyncA_noabort files cfg root signal hs,
      buildTreeAsyncB_noabort files cfg root signal hs]
  exact generatePure_eq files cfg root

theorem generatePureA_root_line (files : List (String × Nat)) (cfg : Config) (root : String)
    (hj : ¬ cfg.style = "json") (str : String) (st : Stats)
    (h : generatePureA files cfg root = .ok (str, st)) :
    ∃ body, str = (if cfg.trailingSlash then root ++ "/" else root) ++
      (if cfg.showSizes then " (" ++ formatSize st.totalSize ++ ")" else "") ++ "\n" ++ body := by
  unfold generatePureA at h
  cases hb : buildPure files cfg with
  | error e => rw [hb] at h; exact absurd h (by simp)
  | ok r =>
    obtain ⟨tree, stats⟩ := r
    rw [hb] at h
    dsimp only at h
    rw [if_neg hj] at h
    injection h with h
    injection h with h1 h2
    subst h2
    exact ⟨renderNodesPureA cfg tree "" 0, h1.symm⟩

theorem dropped_iff (ignores : List String) (path : String) :
    ((splitOnChar path '/').drop 1).any (fun part => ignores.contains part) = true ↔
      ∃ seg ∈ (splitOnChar path '/').drop 1, seg ∈ ignores := by
  rw [List.any_eq_true]
  constructor
  · rintro ⟨seg, hm, hc⟩
    exact ⟨seg, hm, by simpa [List.elem_iff] using hc⟩
  · rintro ⟨seg, hm, hc⟩
    exact ⟨seg, hm, by simpa [List.elem_iff] using hc⟩

/-! ### Claim theorems -/

/-- C1: for the path list [("root/a.txt", 10), ("root/sub/b.txt", 20),
("root/sub/.git/x", 5)] with root name "root", ignore set containing
".git", classic style, showFiles on, showSizes off, trailingSlash off and
maxDepth 10, the build+render pass produces exactly the four lines
"root", "├── sub", "│   └── b.txt", "└── a.txt", each terminated by a
line break and in that order, and the statistics record one directory,
two files and 30 bytes. -/
theorem claim_C1_scenario :
    buildTreeAsyncA scenarioFiles scenarioCfg "root" sigFalse =
      .ok ("root\n├── sub\n│   └── b.txt\n└── a.txt\n", ⟨1, 2, 30⟩) := rfl

/-- C2: the reported statistics equal the number of directory nodes, the
number of file nodes and the total size of the built hierarchy; the build
result depends only on the path list and the ignore set, so two runs with
the same paths and ignores but different showFiles, maxDepth, style,
showSizes or trailingSlash yield identical statistics; the full pass
reports exactly the build statistics (rendering never alters them); and a
duplicated entry never double-counts. -/
theorem claim_C2_stats :
    (∀ (files : List (String × Nat)) (cfg : Config) (t : TreeLevel) (s : Stats),
      buildPure files cfg = .ok (t, s) →
      s.dirs = levelDirs t ∧ s.files = levelFiles t ∧ s.totalSize = levelBytes t) ∧
    (∀ (files : List (String × Nat)) (cfg1 cfg2 : Config), cfg1.ignores = cfg2.ignores →
      buildPure files cfg1 = buildPure files cfg2) ∧
    (∀ (files : List (String × Nat)) (cfg : Config) (root str : String) (s : Stats),
      generatePureA files cfg root = .ok (str, s) →
      ∃ t, buildPure files cfg = .ok (t, s)) ∧
    (∀ (l1 l2 : List (String × Nat)) (e : String × Nat) (cfg : Config),
      buildPure (l1 ++ e :: e :: l2) cfg = buildPure (l1 ++ e :: l2) cfg) := by
  refine ⟨buildPure_stats, buildPure_ignores_only, ?_, buildPure_dup⟩
  intro files cfg root str s h
  unfold generatePureA at h
  cases hb : buildPure files cfg with
  | error e => rw [hb] at h; exact absurd h (by simp)
  | ok r =>
    obtain ⟨tree, stats⟩ := r
    rw [hb] at h
    dsimp only at h
    split_ifs at h <;>
      (injection h with h; injection h with h1 h2; exact ⟨tree, by rw [h2]⟩)

/-- C2 witness: at the §8 scenario, the reported statistics are the node
counts of the built hierarchy, and changing showFiles, maxDepth, style,
showSizes and trailingSlash leaves the build result unchanged. -/
theorem claim_C2_stats_witness :
    ((1 = levelDirs [("a.txt", TreeNode.file 10), ("sub", TreeNode.dir [("b.txt", TreeNode.file 20)])]) ∧
      (2 = levelFiles [("a.txt", TreeNode.file 10), ("sub", TreeNode.dir [("b.txt", TreeNode.file 20)])]) ∧
      (30 = levelBytes [("a.txt", TreeNode.file 10), ("sub", TreeNode.dir [("b.txt", TreeNode.file 20)])])) ∧
    buildPure scenarioFiles scenarioCfg =
      buildPure scenarioFiles
        { maxDepth := 1, style := "json", ignores := [".git"], showFiles := false,
          showSizes := true, trailingSlash := true, showStats := false } := by
  constructor
  · exact claim_C2_stats.1 scenarioFiles scenarioCfg
      [("a.txt", TreeNode.file 10), ("sub", TreeNode.dir [("b.txt", TreeNode.file 20)])]
      ⟨1, 2, 30⟩ rfl
  · exact claim_C2_stats.2.1 scenarioFiles scenarioCfg _ rfl

/-- C3: an entry is dropped exactly when one of its segments after the
root segment is literally a member of the ignore set (case-sensitive
equality, no substring or glob matching); a dropped entry contributes
nothing to the output or the statistics of the whole pass; and an entry
none of whose segments is in the ignore set is inserted. -/
theorem claim_C3_ignore :
    (∀ (ignores : List String) (path : String),
      ((splitOnChar path '/').drop 1).any (fun part => ignores.contains part) = true ↔
        ∃ seg ∈ (splitOnChar path '/').drop 1, seg ∈ ignores) ∧
    (∀ (l1 l2 : List (String × Nat)) (e : String × Nat) (cfg : Config) (root : String),
      (∃ seg ∈ (splitOnChar e.1 '/').drop 1, seg ∈ cfg.ignores) →
      generatePureA (l1 ++ e :: l2) cfg root = generatePureA (l1 ++ l2) cfg root) ∧
    (∀ (cfg : Config) (acc : TreeLevel × Stats) (f : String × Nat),
      (∀ seg ∈ (splitOnChar f.1 '/').drop 1, seg ∉ cfg.ignores) →
      processEntry cfg acc f = insertParts acc.1 ((splitOnChar f.1 '/').drop 1) f.2 acc.2) := by
  refine ⟨dropped_iff, ?_, ?_⟩
  · intro l1 l2 e cfg root hseg
    unfold generatePureA
    rw [buildPure_splice l1 l2 e cfg ((dropped_iff cfg.ignores e.1).mpr hseg)]
  · intro cfg acc f hseg
    unfold processEntry
    rw [if_neg (show ¬ ((splitOnChar f.1 '/').drop 1).any
        (fun part => cfg.ignores.contains part) = true from ?_)]
    intro habs
    obtain ⟨seg, hm, hin⟩ := (dropped_iff cfg.ignores f.1).mp habs
    exact hseg seg hm hin

/-- C3 witness: in the §8 scenario, the ".git" entry contributes nothing
to the pass, and a path whose segment merely contains "test" as a proper
substring is inserted rather than dropped. -/
theorem claim_C3_ignore_witness :
    generatePureA scenarioFiles scenarioCfg "root" =
      generatePureA [("root/a.txt", 10), ("root/sub/b.txt", 20)] scenarioCfg "root" ∧
    processEntry { scenarioCfg with ignores := ["test"] } ([], ⟨0, 0, 0⟩)
        ("root/testing/f.txt", 3) =
      insertParts [] ["testing", "f.txt"] 3 ⟨0, 0, 0⟩ := by
  constructor
  · exact claim_C3_ignore.2.1 [("root/a.txt", 10), ("root/sub/b.txt", 20)] []
      ("root/sub/.git/x", 5) scenarioCfg "root" ⟨".git", by decide, by decide⟩
  · exact claim_C3_ignore.2.2 { scenarioCfg with ignores := ["test"] } ([], ⟨0, 0, 0⟩)
      ("root/testing/f.txt", 3) (by decide)

/-- C4 counterexample: with maxDepth 1 the pass on the §8 scenario emits
the root line followed by the root's direct children "sub" and "a.txt",
so the output is not the root line alone and the children (depth 1 when
the root counts as depth 0) are rendered even though 1 ≥ maxDepth. -/
theorem claim_C4_counterexample :
    buildTreeAsyncA scenarioFiles { scenarioCfg with maxDepth := 1 } "root" sigFalse =
      .ok ("root\n├── sub\n└── a.txt\n", ⟨1, 2, 30⟩) ∧
    "root\n├── sub\n└── a.txt\n" ≠ "root\n" :=
  ⟨rfl, by decide⟩

/-- C4 amended: no rendered line corresponds to a node at depth greater
than maxDepth (root at depth 0, its children at depth 1): rendering from
depth `d` reads nothing of the hierarchy below `maxDepth - d` levels, so
the output equals the output on the truncated hierarchy; the root line is
always emitted as the first line of the text styles regardless of
maxDepth; and with maxDepth 1 the §8 scenario output is the root line
plus the root's direct children lines. -/
theorem claim_C4_depth_amended :
    (∀ (cfg : Config) (nodes : TreeLevel) (pre : String) (depth : Nat),
      renderNodesPureA cfg nodes pre depth =
        renderNodesPureA cfg (truncLevel (cfg.maxDepth - depth) nodes) pre depth) ∧
    (∀ (files : List (String × Nat)) (cfg : Config) (root str : String) (st : Stats),
      ¬ cfg.style = "json" → generatePureA files cfg root = .ok (str, st) →
      ∃ body, str = (if cfg.trailingSlash then root ++ "/" else root) ++
        (if cfg.showSizes then " (" ++ formatSize st.totalSize ++ ")" else "") ++ "\n" ++ body) ∧
    buildTreeAsyncA scenarioFiles { scenarioCfg with maxDepth := 1 } "root" sigFalse =
      .ok ("root\n├── sub\n└── a.txt\n", ⟨1, 2, 30⟩) :=
  ⟨renderNodesPureA_trunc,
   fun files cfg root str st hj h => generatePureA_root_line files cfg root hj str st h, rfl⟩

/-- C4 witness: the truncation identity and the root-line decomposition
at the §8 scenario. -/
theorem claim_C4_depth_amended_witness :
    renderNodesPureA scenarioCfg [("a.txt", TreeNode.file 10)] "" 0 =
      renderNodesPureA scenarioCfg
        (truncLevel (scenarioCfg.maxDepth - 0) [("a.txt", TreeNode.file 10)]) "" 0 ∧
    ∃ body, "root\n├── sub\n│   └── b.txt\n└── a.txt\n" =
      (if scenarioCfg.trailingSlash then "root" ++ "/" else "root") ++
      (if scenarioCfg.showSizes then " (" ++ formatSize (⟨1, 2, 30⟩ : Stats).totalSize ++ ")"
        else "") ++ "\n" ++ body :=
  ⟨claim_C4_depth_amended.1 scenarioCfg [("a.txt", TreeNode.file 10)] "" 0,
   claim_C4_depth_amended.2.1 scenarioFiles scenarioCfg "root"
     "root\n├── sub\n│   └── b.txt\n└── a.txt\n" ⟨1, 2, 30⟩ (by decide) rfl⟩

/-- C5: the entry list the renderer walks is sorted by the comparator
relation, which holds exactly when the left entry is a directory and the
right a file, or both are of the same kind and the left name is not
greater in the case-aware comparison; the sorted list does not depend on
the insertion order of the children map (for unique keys); and the
renderer consumes precisely this sorted list at every level. -/
theorem claim_C5_ordering :
    (∀ nodes : TreeLevel, List.Sorted entryRel (sortEntries nodes)) ∧
    (∀ a b : String × TreeNode, entryRel a b ↔
      ((a.2.isDir = true ∧ b.2.isDir = false) ∨
        (a.2.isDir = b.2.isDir ∧ localeCompare a.1 b.1 ≠ .gt))) ∧
    (∀ nodes nodes2 : TreeLevel, nodes.Perm nodes2 → (nodes.map Prod.fst).Nodup →
      sortEntries nodes = sortEntries nodes2) ∧
    (∀ (cfg : Config) (fuel : Nat) (nodes : TreeLevel) (pre : String) (depth : Nat),
      renderTreePureA cfg (fuel + 1) nodes pre depth =
        renderRowPureA cfg (styleForA cfg.style)
          (fun tr p d => renderTreePureA cfg fuel tr p d) (sortEntries nodes) pre depth) := by
  refine ⟨sortEntries_sorted, ?_, sortEntries_insensitive, fun _ _ _ _ _ => rfl⟩
  intro a b
  unfold entryRel entriesCmp
  cases ha : a.2.isDir <;> cases hb : b.2.isDir <;> simp

/-- C5 witness: a directory sorts before a file regardless of which was
inserted first. -/
theorem claim_C5_ordering_witness :
    sortEntries [("a.txt", TreeNode.file 10), ("sub", TreeNode.dir [])] =
      sortEntries [("sub", TreeNode.dir []), ("a.txt", TreeNode.file 10)] :=
  claim_C5_ordering.2.2.1 _ _ (List.Perm.swap _ _ _) (by decide)

/-- C6 counterexample: when the segment "x" is observed first as a file
("root/x") and then used as a directory ("root/x/y"), the build does not
complete normally: it aborts with an error (the source reads `._children`
of a file object and the next property access throws a TypeError). -/
theorem claim_C6_counterexample :
    buildPure [("root/x", 1), ("root/x/y", 2)] scenarioCfg = .error .typeError := rfl

/-- C6 amended: each path prefix maps to exactly one node (keys are
unique at every level of a built hierarchy); re-inserting a path that is
already present is idempotent on the hierarchy and the statistics, and an
immediately duplicated entry leaves the whole build unchanged; when a
segment is observed first as a directory and later as a file, the first
observed type is kept and no conflict is reported; but when a segment is
observed first as a file and later as a directory, the build aborts with
an error instead of completing normally. -/
theorem claim_C6_prefix_amended :
    (∀ (files : List (String × Nat)) (cfg : Config) (t : TreeLevel) (s : Stats),
      buildPure files cfg = .ok (t, s) → LevelWF t) ∧
    (∀ (parts : List String) (level : TreeLevel) (size : Nat) (s : Stats)
      (l2 : TreeLevel) (s2 : Stats), insertParts level parts size s = .ok (l2, s2) →
      ∀ (size2 : Nat) (s3 : Stats), insertParts l2 parts size2 s3 = .ok (l2, s3)) ∧
    (∀ (l1 l2 : List (String × Nat)) (e : String × Nat) (cfg : Config),
      buildPure (l1 ++ e :: e :: l2) cfg = buildPure (l1 ++ e :: l2) cfg) ∧
    (∀ (level : TreeLevel) (p : String) (v : TreeNode) (size : Nat) (s : Stats),
      findVal level p = some v → insertParts level [p] size s = .ok (level, s)) ∧
    (∀ (level : TreeLevel) (p : String) (fs : Nat) (q : String) (rest : List String)
      (size : Nat) (s : Stats), findVal level p = some (.file fs) →
      insertParts level (p :: q :: rest) size s = .error .typeError) := by
  refine ⟨buildPure_WF, insertParts_idem, buildPure_dup, ?_, ?_⟩
  · intro level p v size s h
    simp only [insertParts]
    rw [h]
  · intro level p fs q rest size s h
    simp only [insertParts]
    rw [h]

/-- C6 witness: a directory node at the final segment is kept untouched
by a later file insertion at the same path, while a file node used as a
directory aborts the insertion, and a successful insertion is idempotent. -/
theorem claim_C6_prefix_amended_witness :
    insertParts [("x", TreeNode.dir [])] ["x"] 5 ⟨1, 0, 0⟩ =
      .ok ([("x", TreeNode.dir [])], ⟨1, 0, 0⟩) ∧
    insertParts [("x", TreeNode.file 1)] ["x", "y"] 2 ⟨0, 1, 1⟩ = .error .typeError ∧
    insertParts [("x", TreeNode.file 1)] ["x"] 9 ⟨0, 1, 1⟩ =
      .ok ([("x", TreeNode.file 1)], ⟨0, 1, 1⟩) :=
  ⟨claim_C6_prefix_amended.2.2.2.1 [("x", TreeNode.dir [])] "x" (TreeNode.dir []) 5 ⟨1, 0, 0⟩ rfl,
   claim_C6_prefix_amended.2.2.2.2 [("x", TreeNode.file 1)] "x" 1 "y" [] 2 ⟨0, 1, 1⟩ rfl,
   claim_C6_prefix_amended.2.1 ["x"] [] 1 ⟨0, 0, 0⟩ [("x", TreeNode.file 1)] ⟨0, 1, 1⟩ rfl 9 ⟨0, 1, 1⟩⟩

/-- C7 counterexample: at 1024^4 bytes the formatter renders
"1 undefined" — the unit table has no fifth entry, so the rendered unit is
the string "undefined", not one of B, KB, MB, GB. -/
theorem claim_C7_counterexample :
    formatSize (1024 ^ 4) = "1 undefined" ∧
    ¬ ∃ u ∈ ["B", "KB", "MB", "GB"], "1 undefined" = "1 " ++ u :=
  ⟨formatSize_overflow, by decide⟩

/-- C7 amended: zero renders as exactly "0 B"; 10 → "10 B", 1024 →
"1 KB", 1536 → "1.5 KB"; for every byte count below 1024^4 the formatter
scales by the binary logarithm and appends a unit drawn from B, KB, MB,
GB; the numeric part always carries at most two decimal digits with the
trailing zero of the fraction stripped; and for 1024^4 bytes and above
the unit index leaves the table, rendering the unit "undefined". -/
theorem claim_C7_format_amended :
    formatSize 0 = "0 B" ∧ formatSize 10 = "10 B" ∧ formatSize 1024 = "1 KB" ∧
    formatSize 1536 = "1.5 KB" ∧
    (∀ b : Nat, 0 < b → b < 1024 ^ 4 →
      Nat.log 1024 b ≤ 3 ∧
      (["B", "KB", "MB", "GB"].getD (Nat.log 1024 b) "undefined") ∈ ["B", "KB", "MB", "GB"] ∧
      formatSize b = fix2 b (1024 ^ Nat.log 1024 b) ++ " " ++
        (["B", "KB", "MB", "GB"].getD (Nat.log 1024 b) "undefined")) ∧
    (∀ n d : Nat,
      (∃ ip : Nat, fix2 n d = toString ip) ∨
      (∃ ip fr : Nat, 1 ≤ fr ∧ fr ≤ 9 ∧ fix2 n d = toString ip ++ "." ++ toString fr) ∨
      (∃ ip fr : Nat, 1 ≤ fr ∧ fr ≤ 9 ∧ fix2 n d = toString ip ++ ".0" ++ toString fr) ∨
      (∃ ip fr : Nat, 10 ≤ fr ∧ fr ≤ 99 ∧ fr % 10 ≠ 0 ∧
        fix2 n d = toString ip ++ "." ++ toString fr)) ∧
    formatSize (1024 ^ 4) = "1 undefined" :=
  ⟨formatSize_zero, formatSize_ten, formatSize_kilo, formatSize_kilo_half,
   formatSize_unit_mem, fix2_shape, formatSize_overflow⟩

/-- C7 witness: the unit selection at 5 bytes. -/
theorem claim_C7_format_amended_witness :
    Nat.log 1024 5 ≤ 3 ∧
    (["B", "KB", "MB", "GB"].getD (Nat.log 1024 5) "undefined") ∈ ["B", "KB", "MB", "GB"] ∧
    formatSize 5 = fix2 5 (1024 ^ Nat.log 1024 5) ++ " " ++
      (["B", "KB", "MB", "GB"].getD (Nat.log 1024 5) "undefined") :=
  claim_C7_format_amended.2.2.2.2.1 5 (by decide) (by decide)

set_option maxRecDepth 8192 in
/-- C8 counterexample: the structured-style serialization of the §8
scenario contains no key named "type" and no key named "children": the
runtime node objects use the underscore-prefixed keys `_type` and
`_children`, so nodes are not serialized as the claimed
`(type, size)` / `(type, children)` records. -/
theorem claim_C8_counterexample :
    buildTreeAsyncA scenarioFiles { scenarioCfg with style := "json" } "root" sigFalse =
      .ok (scenarioJson, ⟨1, 2, 30⟩) ∧
    ¬ ("\"type\"".data <:+: scenarioJson.data) ∧
    ¬ ("\"children\"".data <:+: scenarioJson.data) := by
  refine ⟨?_, by decide, by decide⟩
  have hb : buildLoopChunk { scenarioCfg with style := "json" } sigFalse 2000 scenarioFiles 0
      ([], ⟨0, 0, 0⟩) =
      .ok ([("a.txt", .file 10), ("sub", .dir [("b.txt", .file 20)])], ⟨1, 2, 30⟩) := rfl
  have hjson : jsonTree [("a.txt", .file 10), ("sub", .dir [("b.txt", .file 20)])] 0 =
      scenarioJson := by
    simp only [jsonTree, jsonEntries, jsonNode, jsonInd, jsonEsc, jsonEscChar]
    rfl
  unfold buildTreeAsyncA
  rw [hb]
  dsimp only
  rw [if_pos rfl, hjson]

set_option maxRecDepth 8192 in
/-- C8 amended: for the structured-data (`json`) style on the §8 scenario
the pass serializes the hierarchy with file nodes as
`(_type: "file", size)` and directory nodes as
`(_type: "dir", _children: ...)` objects: `sub`'s children map `b.txt` to
a file of size 20, the top level maps `a.txt` to a file of size 10, and
no `.git` key appears anywhere in the serialization. -/
theorem claim_C8_structured_amended :
    buildTreeAsyncA scenarioFiles { scenarioCfg with style := "json" } "root" sigFalse =
      .ok (scenarioJson, ⟨1, 2, 30⟩) ∧
    ("\"a.txt\": \x7b\n    \"_type\": \"file\",\n    \"size\": 10\n  \x7d".data <:+:
      scenarioJson.data) ∧
    ("\"_children\": \x7b\n      \"b.txt\": \x7b\n        \"_type\": \"file\",\n        \"size\": 20\n      \x7d\n    \x7d".data <:+:
      scenarioJson.data) ∧
    ¬ (".git".data <:+: scenarioJson.data) := by
  refine ⟨?_, by decide, by decide, by decide⟩
  have hb : buildLoopChunk { scenarioCfg with style := "json" } sigFalse 2000 scenarioFiles 0
      ([], ⟨0, 0, 0⟩) =
      .ok ([("a.txt", .file 10), ("sub", .dir [("b.txt", .file 20)])], ⟨1, 2, 30⟩) := rfl
  have hjson : jsonTree [("a.txt", .file 10), ("sub", .dir [("b.txt", .file 20)])] 0 =
      scenarioJson := by
    simp only [jsonTree, jsonEntries, jsonNode, jsonInd, jsonEsc, jsonEscChar]
    rfl
  unfold buildTreeAsyncA
  rw [hb]
  dsimp only
  rw [if_pos rfl, hjson]

/-- C9: whenever the cancellation signal is observed set at a yield point
of the build phase (the k-th batch boundary within the input, on an input
whose entries insert without fault), the pass terminates with the
Aborted outcome — not success and not the failure error — and publishing
the outcome leaves the previously published text and statistics exactly
in place. -/
theorem claim_C9_cancellation :
    ∀ (files : List (String × Nat)) (cfg : Config) (root : String) (signal : Nat → Bool)
      (prev : String × Stats) (k : Nat) (r : TreeLevel × Stats),
      buildLoopPure cfg files ([], ⟨0, 0, 0⟩) = .ok r →
      k * 2000 < files.length → signal k = true →
      buildTreeAsyncA files cfg root signal = .error .aborted ∧
      publish prev (buildTreeAsyncA files cfg root signal) = prev ∧
      (∀ res : String × Stats, buildTreeAsyncA files cfg root signal ≠ .ok res) ∧
      buildTreeAsyncA files cfg root signal ≠ .error .typeError := by
  intro files cfg root signal prev k r hok hreach hk
  have habort : buildLoopChunk cfg signal 2000 files 0 ([], ⟨0, 0, 0⟩) = .error .aborted :=
    buildLoopChunk_abort cfg signal 2000 (by norm_num) files 0 ([], ⟨0, 0, 0⟩)
      ⟨r, hok⟩ k (by omega) (by omega) hk
  have hmain : buildTreeAsyncA files cfg root signal = .error .aborted := by
    unfold buildTreeAsyncA
    rw [habort]
  refine ⟨hmain, ?_, ?_, ?_⟩
  · rw [hmain]; rfl
  · intro res; rw [hmain]; simp
  · rw [hmain]; simp

/-- C9 witness: a one-entry build with the signal already set at the
first yield point aborts and publishes nothing. -/
theorem claim_C9_cancellation_witness :
    buildTreeAsyncA [("root/a.txt", 10)] scenarioCfg "root" (fun _ => true) =
      .error .aborted ∧
    publish ("last", ⟨7, 8, 9⟩)
      (buildTreeAsyncA [("root/a.txt", 10)] scenarioCfg "root" (fun _ => true)) =
      ("last", ⟨7, 8, 9⟩) := by
  have h := claim_C9_cancellation [("root/a.txt", 10)] scenarioCfg "root" (fun _ => true)
    ("last", ⟨7, 8, 9⟩) 0 ([("a.txt", TreeNode.file 10)], ⟨0, 1, 10⟩) rfl (by decide) rfl
  exact ⟨h.1, h.2.1⟩

/-- C10: on every input file list, root name and configuration whose
style is one of classic, ascii, minimal, indent, emoji or json, a pass of
variant A (src/src/App.jsx, chunk 2000, table-driven indent style) and a
pass of variant B (src/unnamed/part_000, chunk 1500, per-depth repeated
indent) whose signal is never set produce the identical rendered string
and identical statistics. -/
theorem claim_C10_variants :
    ∀ (files : List (String × Nat)) (cfg : Config) (root : String) (signal : Nat → Bool),
      (∀ k, signal k = false) →
      cfg.style ∈ ["classic", "ascii", "minimal", "indent", "emoji", "json"] →
      buildTreeAsyncA files cfg root signal = buildTreeAsyncB files cfg root signal :=
  fun files cfg root signal hs _ => buildTreeAsync_eq_of_noabort files cfg root signal hs

/-- C10 witness: the two variants agree on the §8 scenario in the indent
style, where their mechanisms differ the most. -/
theorem claim_C10_variants_witness :
    buildTreeAsyncA scenarioFiles { scenarioCfg with style := "indent" } "root" sigFalse =
      buildTreeAsyncB scenarioFiles { scenarioCfg with style := "indent" } "root" sigFalse :=
  claim_C10_variants scenarioFiles { scenarioCfg with style := "indent" } "root" sigFalse
    (fun _ => rfl) (by decide)
